import Mathlib

/-!
A shallow embedding of the step-by-step Python execution tracer (`app.py`).

The guest runtime is modelled as follows: scalar Python values (int, bool,
None, str) are embedded directly; every composite value lives in an object
store indexed by its runtime identity (`id(value)` becomes a natural-number
address), so aliasing and cycles are representable.  Floats are omitted from
the value universe (floating point is outside the embedding); `numeric`
fields therefore carry integers.  `repr` of a string is modelled for strings
without quotes or escape characters; the default `repr` of a user object is
modelled faithfully as an address-bearing rendering, and an opaque builtin's
`repr` as a function of the live address (address-bearing for `object()`
instances or generators, constant for reprs like `range(0, 3)`).  Traced
execution is modelled by the sequence of instrumentation events the runtime
would deliver to the installed trace function, each carrying the live frame
data; since CPython propagates an exception raised by the trace function
into the traced frame (unsetting tracing), the run input also records
whether a guest handler intercepts the tracer's `TraceLimitExceeded` and
what the guest then does.
-/

namespace PyTrace

/-- Configuration constants from `app.py`. -/
def USER_FILENAME : String := "<user_code>"

def MAX_STEPS : Nat := 2000

def MAX_PREVIEW_ITEMS : Nat := 6

def MAX_REFERENCE_DEPTH : Nat := 3

/-- A Python runtime value: scalars inline, composites by store address. -/
inductive PyValue where
  | intV (n : Int)
  | boolV (b : Bool)
  | noneV
  | strV (s : String)
  | refV (a : Nat)
deriving DecidableEq, Repr

/-- A composite object held in the store.  `objO` is a user-defined object
with a `__dict__` of attributes; `opaqueO` is anything else (a `__dict__`-less
builtin instance such as `object()` or a generator), carrying its type name
and how `repr` renders it as a function of the live object's address — the
default `repr` of such builtins embeds the address (`<generator object ... at
0x...>`), while reprs like `range(0, 3)` are constant in it.  `none` models a
`__repr__` that raises. -/
inductive PyObj where
  | listO (items : List PyValue)
  | tupleO (items : List PyValue)
  | setO (items : List PyValue)
  | dictO (entries : List (PyValue × PyValue))
  | objO (className : String) (attrs : List (String × PyValue))
  | opaqueO (tn : String) (reprResult : Option (Nat → String))

/-- The object store: runtime identity (address) to object. -/
def Store : Type := Nat → PyObj

/-- `type(value).__name__`. -/
def typeName (store : Store) : PyValue → String
  | .intV _ => "int"
  | .boolV _ => "bool"
  | .noneV => "NoneType"
  | .strV _ => "str"
  | .refV a =>
    match store a with
    | .listO _ => "list"
    | .tupleO _ => "tuple"
    | .setO _ => "set"
    | .dictO _ => "dict"
    | .objO c _ => c
    | .opaqueO tn _ => tn

/-- `repr` of a string (modelled for strings without quotes or escapes). -/
def pyStrRepr (s : String) : String := "'" ++ s ++ "'"

/-- The default `repr` of a user object: `<C object at 0x...>`; the address
appears in the text, exactly as in CPython. -/
def pyObjectRepr (className : String) (a : Nat) : String :=
  "<" ++ className ++ " object at 0x" ++ String.mk (Nat.toDigits 16 a) ++ ">"

/-- The preview list used by `format_value` for collections: the first 6
rendered elements, plus an ellipsis marker when more exist. -/
def previewParts (fmt : PyValue → String) (xs : List PyValue) : List String :=
  (xs.take 6).map fmt ++ (if 6 < xs.length then ["..."] else [])

/-- The preview list used by `format_value` for dicts. -/
def previewPairs (fmt : PyValue → String) (es : List (PyValue × PyValue)) : List String :=
  (es.take 6).map (fun p => fmt p.1 ++ ": " ++ fmt p.2) ++
    (if 6 < es.length then ["..."] else [])

/-- One unfolding of `format_value` (`app.py` lines 33-69), with `fmt` the
recursive call at `depth + 1`. -/
def formatBody (store : Store) (fmt : PyValue → String) (v : PyValue) : String :=
  match v with
  | .intV n => toString n
  | .boolV b => if b then "True" else "False"
  | .noneV => "None"
  | .strV s => pyStrRepr (if 60 < s.length then s.take 57 ++ "..." else s)
  | .refV a =>
    match store a with
    | .listO xs => "[" ++ String.intercalate ", " (previewParts fmt xs) ++ "]"
    | .tupleO xs => "(" ++ String.intercalate ", " (previewParts fmt xs) ++ ")"
    | .setO xs => "\x7b" ++ String.intercalate ", " (previewParts fmt xs) ++ "\x7d"
    | .dictO es => "\x7b" ++ String.intercalate ", " (previewPairs fmt es) ++ "\x7d"
    | .objO c _ => pyObjectRepr c a
    | .opaqueO tn r =>
      match r with
      | some f => f a
      | none => "<unrepr " ++ tn ++ ">"

/-- `format_value` indexed by fuel: fuel `3 - depth`, so fuel 0 is the
`depth > 2` cutoff and each recursive call at `depth + 1` burns one unit. -/
def formatValueFuel (store : Store) : Nat → PyValue → String
  | 0, _ => "..."
  | f + 1, v => formatBody store (fun x => formatValueFuel store f x) v

/-- `format_value(value, depth)` from `app.py`. -/
def format_value (store : Store) (v : PyValue) (depth : Nat := 0) : String :=
  formatValueFuel store (3 - depth) v

/-- A serialized value descriptor (a JSON object in the source; optional
fields model absent keys). -/
structure Descriptor where
  type : String
  reprS : String
  numeric : Option Int := none
  length : Option Nat := none
  ref : Option String := none
  truncated : Bool := false
deriving DecidableEq, Repr

/-- `serialize_scalar(value)` from `app.py` (also used for the depth-cutoff
descriptor of composites).  `numeric` is `int(value)` for bools and the
numeric value for ints. -/
def serialize_scalar (store : Store) (v : PyValue) : Descriptor :=
  { type := typeName store v
    reprS := format_value store v
    numeric :=
      match v with
      | .boolV b => some (if b then 1 else 0)
      | .intV n => some n
      | _ => none
    length :=
      match v with
      | .strV s => some s.length
      | _ => none }

/-- An item of a heap entry's `items` list: a child descriptor or the
`{"truncated": true}` marker. -/
inductive SeqItem where
  | desc (d : Descriptor)
  | truncMark
deriving DecidableEq, Repr

/-- An item of a mapping heap entry's `entries` list. -/
inductive MapItem where
  | kv (key value : Descriptor)
  | truncMark
deriving DecidableEq, Repr

/-- A value of an object heap entry's `attributes` mapping. -/
inductive AttrVal where
  | desc (d : Descriptor)
  | truncMark
deriving DecidableEq, Repr

/-- One entry of the per-step heap table. -/
structure HeapEntry where
  type : String
  reprS : String
  id : String
  kind : Option String := none
  length : Option Nat := none
  items : Option (List SeqItem) := none
  entries : Option (List MapItem) := none
  attributes : Option (List (String × AttrVal)) := none
deriving DecidableEq, Repr

/-- The per-step heap table, in insertion order (a Python dict). -/
abbrev Heap : Type := List (String × HeapEntry)

def heapKeys (h : Heap) : List String := h.map Prod.fst

def heapContains (h : Heap) (k : String) : Bool := (heapKeys h).contains k

/-- `heap[ref] = entry` on an existing key: replace in place. -/
def heapSet (h : Heap) (k : String) (e : HeapEntry) : Heap :=
  h.map (fun p => if p.1 == k then (k, e) else p)

/-- Whether `serialize_reference` treats the value as a scalar (line 138). -/
def isScalar : PyValue → Bool
  | .refV _ => false
  | _ => true

/-- The lightweight reference descriptor built at lines 148-152. -/
def mkRefDescriptor (store : Store) (a : Nat) : Descriptor :=
  { type := typeName store (.refV a)
    reprS := format_value store (.refV a)
    ref := some ("obj_" ++ toString a) }

/-- Python string comparison: lexicographic by code point (computed on the
character list so that it evaluates). -/
def strLt (s t : String) : Bool := decide (s.data < t.data)

/-- Python `str.startswith` (computed on the character list). -/
def strStartsWith (s p : String) : Bool := p.data.isPrefixOf s.data

/-- Python `str.endswith` (computed on the character list). -/
def strEndsWith (s p : String) : Bool := p.data.isSuffixOf s.data

/-- Stable insertion sort by a string key (Python `list.sort(key=...)` is a
stable sort; on a total key order the results agree). -/
def insertSorted (key : α → String) (x : α) : List α → List α
  | [] => [x]
  | y :: ys => if strLt (key x) (key y) then x :: y :: ys else y :: insertSorted key x ys

def sortByKey (key : α → String) : List α → List α
  | [] => []
  | x :: xs => insertSorted key x (sortByKey key xs)

/-- Serialize the elements of a sequence in order, threading the heap. -/
def serializeSeqWith (g : PyValue → Heap → Descriptor × Heap) :
    List PyValue → Heap → List SeqItem × Heap
  | [], h => ([], h)
  | v :: vs, h =>
    let r := g v h
    let rest := serializeSeqWith g vs r.2
    (SeqItem.desc r.1 :: rest.1, rest.2)

/-- Serialize the key/value pairs of a mapping in order, threading the heap. -/
def serializeMapWith (g : PyValue → Heap → Descriptor × Heap) :
    List (PyValue × PyValue) → Heap → List MapItem × Heap
  | [], h => ([], h)
  | kv :: rest, h =>
    let rk := g kv.1 h
    let rv := g kv.2 rk.2
    let rs := serializeMapWith g rest rv.2
    (MapItem.kv rk.1 rv.1 :: rs.1, rs.2)

/-- Serialize the attributes of an object in order, threading the heap. -/
def serializeAttrsWith (g : PyValue → Heap → Descriptor × Heap) :
    List (String × PyValue) → Heap → List (String × AttrVal) × Heap
  | [], h => ([], h)
  | nv :: rest, h =>
    let r := g nv.2 h
    let rs := serializeAttrsWith g rest r.2
    ((nv.1, AttrVal.desc r.1) :: rs.1, rs.2)

/-- The placeholder heap entry registered under a value's reference id
before recursing into its children (lines 157-162). -/
def placeholderEntry (store : Store) (a : Nat) : HeapEntry :=
  { type := (mkRefDescriptor store a).type
    reprS := (mkRefDescriptor store a).reprS
    id := "obj_" ++ toString a }

/-- One unfolding of `serialize_reference` (`app.py` lines 137-212), with `g`
the recursive call at `depth + 1`.  The heap entry is registered (as a
placeholder) before any recursion into children; the final field values are
written into that entry afterwards, as the source mutates the shared dict. -/
def serializeBody (store : Store) (g : PyValue → Heap → Descriptor × Heap)
    (v : PyValue) (heap : Heap) : Descriptor × Heap :=
  match v with
  | .refV a =>
    let ref := "obj_" ++ toString a
    let descriptor := mkRefDescriptor store a
    if heapContains heap ref then (descriptor, heap)
    else
      let placeholder : HeapEntry := placeholderEntry store a
      let h0 : Heap := heap ++ [(ref, placeholder)]
      match store a with
      | .listO xs =>
        let r := serializeSeqWith g (xs.take MAX_PREVIEW_ITEMS) h0
        let items := r.1 ++ (if MAX_PREVIEW_ITEMS < xs.length then [SeqItem.truncMark] else [])
        (descriptor, heapSet r.2 ref
          { placeholder with kind := some "sequence", length := some xs.length, items := some items })
      | .tupleO xs =>
        let r := serializeSeqWith g (xs.take MAX_PREVIEW_ITEMS) h0
        let items := r.1 ++ (if MAX_PREVIEW_ITEMS < xs.length then [SeqItem.truncMark] else [])
        (descriptor, heapSet r.2 ref
          { placeholder with kind := some "sequence", length := some xs.length, items := some items })
      | .dictO es =>
        let r := serializeMapWith g (es.take MAX_PREVIEW_ITEMS) h0
        let entries := r.1 ++ (if MAX_PREVIEW_ITEMS < es.length then [MapItem.truncMark] else [])
        (descriptor, heapSet r.2 ref
          { placeholder with kind := some "mapping", length := some es.length, entries := some entries })
      | .setO xs =>
        let iterable := sortByKey (fun x => format_value store x) xs
        let r := serializeSeqWith g (iterable.take MAX_PREVIEW_ITEMS) h0
        let items := r.1 ++ (if MAX_PREVIEW_ITEMS < iterable.length then [SeqItem.truncMark] else [])
        (descriptor, heapSet r.2 ref
          { placeholder with kind := some "set", length := some iterable.length, items := some items })
      | .objO _ attrs =>
        let r := serializeAttrsWith g (attrs.take MAX_PREVIEW_ITEMS) h0
        let attributes := r.1 ++
          (if MAX_PREVIEW_ITEMS < attrs.length then [("...", AttrVal.truncMark)] else [])
        let entry :=
          if attributes.isEmpty then { placeholder with kind := some "object" }
          else { placeholder with kind := some "object", attributes := some attributes }
        (descriptor, heapSet r.2 ref entry)
      | .opaqueO _ _ =>
        (descriptor, heapSet h0 ref { placeholder with kind := some "opaque" })
  | v => (serialize_scalar store v, heap)

/-- `serialize_reference` indexed by fuel `MAX_REFERENCE_DEPTH - depth`:
fuel 0 is the `depth >= MAX_REFERENCE_DEPTH` cutoff (scalars still serialize
inline there, since the scalar test precedes the depth test in the source). -/
def serializeReferenceFuel (store : Store) : Nat → PyValue → Heap → Descriptor × Heap
  | 0, v, heap =>
    if isScalar v then (serialize_scalar store v, heap)
    else ({ serialize_scalar store v with truncated := true }, heap)
  | f + 1, v, heap => serializeBody store (fun x h => serializeReferenceFuel store f x h) v heap

/-- `serialize_reference(value, heap, depth)` from `app.py`. -/
def serialize_reference (store : Store) (v : PyValue) (heap : Heap) (depth : Nat := 0) :
    Descriptor × Heap :=
  serializeReferenceFuel store (MAX_REFERENCE_DEPTH - depth) v heap

/-- Names dropped by `sanitize_mapping` (line 224). -/
def isInternalName (s : String) : Bool :=
  s == "__builtins__" || (strStartsWith s "__" && strEndsWith s "__")

/-- The serialization loop of `sanitize_mapping` (lines 222-232) over the
already sorted-and-capped items.  Serialization in the model is total, so the
per-entry `except` branch is unreachable. -/
def sanitizeGo (store : Store) : List (String × PyValue) → Heap →
    List (String × Descriptor) × Heap
  | [], h => ([], h)
  | kv :: rest, h =>
    if isInternalName kv.1 then sanitizeGo store rest h
    else
      let r := serialize_reference store kv.2 h
      let rs := sanitizeGo store rest r.2
      ((kv.1, r.1) :: rs.1, rs.2)

/-- `sanitize_mapping(mapping, heap)` from `app.py` (lines 215-233): sort all
entries by name, keep the first `MAX_PREVIEW_ITEMS * 4`, then drop internal
names while serializing. -/
def sanitize_mapping (store : Store) (mapping : List (String × PyValue)) (heap : Heap) :
    List (String × Descriptor) × Heap :=
  let items := sortByKey Prod.fst mapping
  sanitizeGo store (items.take (MAX_PREVIEW_ITEMS * 4)) heap

/-- Serialize every pair in order (no name filtering), threading the heap. -/
def serializePairs (store : Store) : List (String × PyValue) → Heap →
    List (String × Descriptor) × Heap
  | [], h => ([], h)
  | kv :: rest, h =>
    let r := serialize_reference store kv.2 h
    let rs := serializePairs store rest r.2
    ((kv.1, r.1) :: rs.1, rs.2)

/-- Modelled from the spec: the Scope Snapshotter as the spec words it —
first drop internal names, then sort the remaining entries by name, then cap
the result at 24 entries total.  This is the comparison definition for the
refinement claim about `sanitize_mapping`; it is not in the source. -/
def sanitizeMappingSpec (store : Store) (mapping : List (String × PyValue)) (heap : Heap) :
    List (String × Descriptor) × Heap :=
  let visible := mapping.filter (fun p => !isInternalName p.1)
  let sorted := sortByKey Prod.fst visible
  serializePairs store (sorted.take (MAX_PREVIEW_ITEMS * 4)) heap

/-- One frame of the guest call chain, as seen by the trace callback. -/
structure FrameData where
  filename : String
  funcName : String
  line : Nat
  frameId : Nat
  locals : List (String × PyValue)
  globals : List (String × PyValue)
deriving DecidableEq, Repr

/-- One entry of a captured stack. -/
structure StackEntry where
  function : String
  line : Nat
  locals : List (String × Descriptor)
deriving DecidableEq, Repr

/-- The walk of `capture_stack` (lines 236-255): user-file frames are
collected, other frames skipped; the walk breaks on a repeated frame
identity; the collected list is reversed at the end. -/
def captureGo (store : Store) : List FrameData → List Nat → Heap →
    List StackEntry × Heap
  | [], _, h => ([], h)
  | fr :: rest, seen, h =>
    if fr.filename == USER_FILENAME then
      if fr.frameId ∈ seen then ([], h)
      else
        let r := sanitize_mapping store fr.locals h
        let rs := captureGo store rest (fr.frameId :: seen) r.2
        ({ function := fr.funcName, line := fr.line, locals := r.1 } :: rs.1, rs.2)
    else captureGo store rest seen h

/-- `capture_stack(frame, heap)` from `app.py`. -/
def capture_stack (store : Store) (frames : List FrameData) (heap : Heap) :
    List StackEntry × Heap :=
  let r := captureGo store frames [] heap
  (r.1.reverse, r.2)

/-- The exception rendering attached to an exception step. -/
structure ExcRecord where
  type : String
  value : String
deriving DecidableEq, Repr

/-- One recorded Step. -/
structure Step where
  event : String
  line : Nat
  locals : List (String × Descriptor)
  globals : List (String × Descriptor)
  stack : List StackEntry
  heap : Heap
  return_value : Option String := none
  exception : Option ExcRecord := none
deriving DecidableEq, Repr

/-- One instrumentation event delivered by the runtime to the trace
callback: the event kind, the current frame, its caller chain, and the
callback argument (return value, or exception info when it is a well-formed
tuple of length at least 2). -/
structure TraceEvent where
  kind : String
  frame : FrameData
  backs : List FrameData
  retValue : PyValue := .noneV
  excInfo : Option (String × PyValue) := none
deriving DecidableEq, Repr

/-- The Step record assembled by `tracer` (lines 271-288) for one recordable
event: fresh heap, sanitized locals and globals, captured stack. -/
def build_step (store : Store) (ev : TraceEvent) : Step :=
  let heap0 : Heap := []
  let rLoc := sanitize_mapping store ev.frame.locals heap0
  let rGlob := sanitize_mapping store ev.frame.globals rLoc.2
  let rStack := capture_stack store (ev.frame :: ev.backs) rGlob.2
  { event := ev.kind
    line := ev.frame.line
    locals := rLoc.1
    globals := rGlob.1
    stack := rStack.1
    heap := rStack.2
    return_value :=
      if ev.kind == "return" then some (format_value store ev.retValue) else none
    exception :=
      if ev.kind == "exception" then
        ev.excInfo.map (fun p => { type := p.1, value := format_value store p.2 })
      else none }

/-- Whether `tracer` records the event (lines 264-267): user file and one of
the four event kinds. -/
def recordableEvent (ev : TraceEvent) : Bool :=
  ev.frame.filename == USER_FILENAME &&
    (ev.kind == "call" || ev.kind == "line" || ev.kind == "return" || ev.kind == "exception")

/-- The accumulation of steps by `tracer`: before recording, the step count
is checked against `MAX_STEPS`; reaching the ceiling raises
`TraceLimitExceeded`, which aborts the run (second component `true`). -/
def collectSteps (store : Store) : List TraceEvent → List Step → List Step × Bool
  | [], acc => (acc, false)
  | ev :: rest, acc =>
    if recordableEvent ev then
      if MAX_STEPS ≤ acc.length then (acc, true)
      else collectSteps store rest (acc ++ [build_step store ev])
    else collectSteps store rest acc

/-- The `TraceResult` dataclass. -/
structure TraceResult where
  stdout : String
  trace : List Step
  error : Option String
  truncated : Bool
  timed_out : Bool
deriving DecidableEq, Repr

/-- The input of one sandboxed run: the object store, the instrumentation
events the guest produces, the traceback text of an unhandled guest
exception (`none` for normal completion), and the captured stdout. -/
structure RunInput where
  store : Store
  events : List TraceEvent
  raisedText : Option String
  stdoutText : String
  /-- Whether a guest handler intercepts `TraceLimitExceeded` if the tracer
  raises it.  CPython propagates an exception raised by the trace function
  into the traced frame (unsetting tracing), and `TraceLimitExceeded`
  derives from `Exception`, so a guest `try/except` can catch it and the run
  then continues untraced. -/
  catchesLimit : Bool := false
  /-- The traceback of an unhandled guest exception raised after
  intercepting the trace-limit exception (`none` = the guest then completes
  normally). -/
  limitRaisedText : Option String := none

/-- The truncation error message (line 309). -/
def truncationMessage : String :=
  "Visualization limited to " ++ toString MAX_STEPS ++ " steps"

/-- `run_user_code(code, conn)` from `app.py` (lines 258-324), as the
TraceResult the child sends.  When the step ceiling is hit the tracer raises
`TraceLimitExceeded`; CPython delivers that exception inside the traced
frame and unsets tracing, so: if the guest does not intercept it, it
propagates out of `exec` into the `except TraceLimitExceeded` arm and the
result is truncated with the ceiling-naming message; if a guest handler
intercepts it, the run finishes untraced and the result is not truncated —
its error is whatever the guest's continuation raises (or none).  Without
truncation the error is the guest traceback (or none).  `timed_out` is
always false here; on every path the trace is the steps collected so far. -/
def run_user_code (inp : RunInput) : TraceResult :=
  let r := collectSteps inp.store inp.events []
  { stdout := inp.stdoutText
    trace := r.1
    error :=
      if r.2 then
        (if inp.catchesLimit then inp.limitRaisedText else some truncationMessage)
      else inp.raisedText
    truncated := r.2 && !inp.catchesLimit
    timed_out := false }

/-- Supervisor process actions on the child. -/
inductive SupAction where
  | kill
  | join
deriving DecidableEq, Repr

/-- How the child process ended, from the supervisor's point of view:
still running at budget expiry (with whatever run it was working on),
finished and delivered its result, or exited silently. -/
inductive ChildOutcome where
  | stillRunning (unsent : RunInput)
  | delivered (inp : RunInput)
  | silent

/-- The fixed timeout result (line 336). -/
def timeoutResult : TraceResult :=
  { stdout := "", trace := [], error := some "Execution timed out"
    truncated := false, timed_out := true }

/-- The fixed silent-failure result (line 341). -/
def noResultTrace : TraceResult :=
  { stdout := "", trace := [], error := some "No result produced"
    truncated := false, timed_out := false }

/-- `execute_code(code)` from `app.py` (lines 327-344), with the process
actions it performs on the child. -/
def execute_code : ChildOutcome → List SupAction × TraceResult
  | .stillRunning _ => ([SupAction.kill, SupAction.join], timeoutResult)
  | .delivered inp => ([], run_user_code inp)
  | .silent => ([], noResultTrace)

/-- JSON values, for the request payload. -/
inductive Json where
  | str (s : String)
  | num (n : Int)
  | boolJ (b : Bool)
  | null
  | arr (xs : List Json)
  | obj (fields : List (String × Json))

/-- `payload.get(key, default)`. -/
def jsonGet (fields : List (String × Json)) (key : String) (dflt : Json) : Json :=
  match fields.find? (fun p => p.1 == key) with
  | some p => p.2
  | none => dflt

def isStrJson : Json → Bool
  | .str _ => true
  | _ => false

/-- The JSON body of an `/api/run` response. -/
structure ApiResponse where
  stdout : String
  trace : List Step
  error : Option String
  truncated : Bool
  timedOut : Bool
deriving DecidableEq, Repr

def apiView (r : TraceResult) : ApiResponse :=
  { stdout := r.stdout, trace := r.trace, error := r.error
    truncated := r.truncated, timedOut := r.timed_out }

/-- The 400 response body of `api_run` (line 357). -/
def invalidPayloadResponse : ApiResponse :=
  { stdout := "", trace := [], error := some "Invalid code payload"
    truncated := false, timedOut := false }

/-- `api_run()` from `app.py` (lines 352-367): `childOf` maps the submitted
code text to the behaviour of its sandboxed child process.  A missing
`code` key defaults to the empty string. -/
def api_run (childOf : String → ChildOutcome) (payload : List (String × Json)) :
    Nat × ApiResponse :=
  match jsonGet payload "code" (Json.str "") with
  | .str s => (200, apiView (execute_code (childOf s)).2)
  | _ => (400, invalidPayloadResponse)

/-- The traceback of the guest's own unhandled exception on this run, if
any: the ordinary traceback when the ceiling is not hit, and the
post-interception traceback when the guest catches the trace-limit
exception (the trace-limit exception itself is the tracer's, not a guest
exception). -/
def guestError (inp : RunInput) : Option String :=
  if (collectSteps inp.store inp.events []).2 then
    (if inp.catchesLimit then inp.limitRaisedText else none)
  else inp.raisedText

/-- The abnormal-termination causes that the spec's invariant sentence
enumerates: guest exception, truncation, or timeout. -/
def abnormalListed : ChildOutcome → Prop
  | .stillRunning _ => True
  | .delivered inp => (run_user_code inp).truncated = true ∨ guestError inp ≠ none
  | .silent => False

/-- The abnormal-termination causes the code actually has: the listed three
plus the silent child failure. -/
def abnormalOutcome : ChildOutcome → Prop
  | .stillRunning _ => True
  | .delivered inp => (run_user_code inp).truncated = true ∨ guestError inp ≠ none
  | .silent => True

/-- Normal completion: the child delivered an untruncated run whose guest
raised nothing. -/
def normalCompletion : ChildOutcome → Prop
  | .delivered inp => (run_user_code inp).truncated = false ∧ guestError inp = none
  | _ => False

/-- The step-ceiling claim as the spec states it: traces never exceed the
ceiling, and exceeding it always yields a truncated result naming the
ceiling. -/
def stepCeilingClaim : Prop :=
  (∀ o : ChildOutcome, ((execute_code o).2.trace).length ≤ MAX_STEPS) ∧
  (∀ inp : RunInput,
    MAX_STEPS < (inp.events.filter recordableEvent).length →
    (run_user_code inp).truncated = true ∧
    (run_user_code inp).error = some truncationMessage)

/-- The flag/error claim as the spec states it: flags never both set,
`error` non-null only on one of the three listed abnormal causes, null on
normal completion. -/
def flagsAndErrorClaim : Prop :=
  ∀ o : ChildOutcome,
    ¬((execute_code o).2.truncated = true ∧ (execute_code o).2.timed_out = true) ∧
    ((execute_code o).2.error ≠ none → abnormalListed o) ∧
    (normalCompletion o → (execute_code o).2.error = none)

/-- The property threaded through the serializer's recursion for key
bookkeeping: serialization only appends heap keys and preserves key
nodup-ness. -/
def KeysProp (g : PyValue → Heap → Descriptor × Heap) : Prop :=
  ∀ (v : PyValue) (h : Heap),
    (∃ ext, heapKeys ((g v h).2) = heapKeys h ++ ext) ∧
    ((heapKeys h).Nodup → (heapKeys ((g v h).2)).Nodup)

/-! Closedness predicates: a descriptor is closed with respect to a key set
when the reference id it carries (if any) is in the set; a heap is closed
when every descriptor nested in its entries is closed with respect to its
own key set.  These state the no-dangling-reference invariant. -/

def descClosedB (ks : List String) (d : Descriptor) : Bool :=
  match d.ref with
  | none => true
  | some r => ks.contains r

def seqItemClosedB (ks : List String) : SeqItem → Bool
  | .desc d => descClosedB ks d
  | .truncMark => true

def mapItemClosedB (ks : List String) : MapItem → Bool
  | .kv k v => descClosedB ks k && descClosedB ks v
  | .truncMark => true

def attrValClosedB (ks : List String) : AttrVal → Bool
  | .desc d => descClosedB ks d
  | .truncMark => true

def entryClosedB (ks : List String) (e : HeapEntry) : Bool :=
  (e.items.getD []).all (seqItemClosedB ks) &&
    (e.entries.getD []).all (mapItemClosedB ks) &&
    (e.attributes.getD []).all (fun p => attrValClosedB ks p.2)

def heapClosedB (h : Heap) : Bool :=
  h.all (fun p => entryClosedB (heapKeys h) p.2)

def scopeClosedB (ks : List String) (l : List (String × Descriptor)) : Bool :=
  l.all (fun p => descClosedB ks p.2)

/-- The no-dangling-reference invariant of one Step: its heap is closed and
every descriptor in its locals, globals and stack-frame locals refers only
to keys of its heap table. -/
def stepClosedB (st : Step) : Bool :=
  heapClosedB st.heap &&
    scopeClosedB (heapKeys st.heap) st.locals &&
    scopeClosedB (heapKeys st.heap) st.globals &&
    st.stack.all (fun e => scopeClosedB (heapKeys st.heap) e.locals)

/-- The property threaded through the serializer's recursion for the
no-dangling-reference invariant: keys only grow (by membership), closed
heaps stay closed, and the returned descriptor is closed with respect to the
final keys. -/
def ClosedProp (g : PyValue → Heap → Descriptor × Heap) : Prop :=
  ∀ (v : PyValue) (h : Heap), heapClosedB h = true →
    (∀ k, k ∈ heapKeys h → k ∈ heapKeys ((g v h).2)) ∧
    heapClosedB ((g v h).2) = true ∧
    descClosedB (heapKeys ((g v h).2)) ((g v h).1) = true

/-! Renaming of runtime addresses, relating two runs of the same program. -/

def mapVal (π : Nat → Nat) : PyValue → PyValue
  | .refV a => .refV (π a)
  | v => v

/-- Rename the addresses inside one object.  An opaque value's `reprResult`
is its repr *recipe* — a function of the live address — which is a property
of the program and the runtime, identical across runs; the rendered text
still differs between runs when the recipe reads its address argument,
because the value is rendered at its renamed address. -/
def mapObj (π : Nat → Nat) : PyObj → PyObj
  | .listO xs => .listO (xs.map (mapVal π))
  | .tupleO xs => .tupleO (xs.map (mapVal π))
  | .setO xs => .setO (xs.map (mapVal π))
  | .dictO es => .dictO (es.map (fun p => (mapVal π p.1, mapVal π p.2)))
  | .objO c attrs => .objO c (attrs.map (fun p => (p.1, mapVal π p.2)))
  | .opaqueO tn r => .opaqueO tn r

/-- The two stores hold the same objects at `π`-renamed addresses. -/
def StoreRel (π : Nat → Nat) (s1 s2 : Store) : Prop :=
  ∀ a, s2 (π a) = mapObj π (s1 a)

def mapScope (π : Nat → Nat) (l : List (String × PyValue)) : List (String × PyValue) :=
  l.map (fun p => (p.1, mapVal π p.2))

def mapFrame (π : Nat → Nat) (fr : FrameData) : FrameData :=
  { fr with
    frameId := π fr.frameId
    locals := mapScope π fr.locals
    globals := mapScope π fr.globals }

def mapEvent (π : Nat → Nat) (ev : TraceEvent) : TraceEvent :=
  { kind := ev.kind
    frame := mapFrame π ev.frame
    backs := ev.backs.map (mapFrame π)
    retValue := mapVal π ev.retValue
    excInfo := ev.excInfo.map (fun p => (p.1, mapVal π p.2)) }

/-- Two runs of the same deterministic program with the same inputs: the
same event structure, guest outcome and output, with runtime addresses
renamed by `π` (a fresh process assigns fresh object identities; set
iteration order and opaque `repr` text are part of the abstract run input). -/
def RelatedRuns (π : Nat → Nat) (inp1 inp2 : RunInput) : Prop :=
  StoreRel π inp1.store inp2.store ∧
  inp2.events = inp1.events.map (mapEvent π) ∧
  inp2.raisedText = inp1.raisedText ∧
  inp2.catchesLimit = inp1.catchesLimit ∧
  inp2.limitRaisedText = inp1.limitRaisedText ∧
  inp2.stdoutText = inp1.stdoutText

/-! The structural view of a trace that the idempotence claim speaks about:
step count, event kinds, line numbers, bound names and rendered values
(reference ids and heap tables, which are derived from process-specific
addresses, are projected away). -/

def descView (d : Descriptor) : String × String := (d.type, d.reprS)

/-- One bound name with its rendered value. -/
structure BindingView where
  name : String
  typeS : String
  reprS : String
deriving DecidableEq, Repr

def scopeView (l : List (String × Descriptor)) : List BindingView :=
  l.map (fun p => { name := p.1, typeS := p.2.type, reprS := p.2.reprS })

/-- One stack frame's structural view. -/
structure FrameView where
  function : String
  line : Nat
  locals : List BindingView
deriving DecidableEq, Repr

def stackView (s : StackEntry) : FrameView :=
  { function := s.function, line := s.line, locals := scopeView s.locals }

/-- One step's structural view. -/
structure StepView where
  event : String
  line : Nat
  locals : List BindingView
  globals : List BindingView
  stack : List FrameView
  return_value : Option String
  exception : Option ExcRecord
deriving DecidableEq, Repr

def stepView (st : Step) : StepView :=
  { event := st.event, line := st.line, locals := scopeView st.locals
    globals := scopeView st.globals, stack := st.stack.map stackView
    return_value := st.return_value, exception := st.exception }

/-- A trace's structural view. -/
structure TraceView where
  stdout : String
  error : Option String
  truncated : Bool
  timed_out : Bool
  steps : List StepView
deriving DecidableEq, Repr

def traceView (r : TraceResult) : TraceView :=
  { stdout := r.stdout, error := r.error, truncated := r.truncated
    timed_out := r.timed_out, steps := r.trace.map stepView }

/-- C9 as stated: any two address-renamed runs of one deterministic program
yield structurally identical traces. -/
def idempotenceClaim : Prop :=
  ∀ (π : Nat → Nat) (inp1 inp2 : RunInput), Function.Injective π →
    RelatedRuns π inp1 inp2 →
    traceView (run_user_code inp1) = traceView (run_user_code inp2)

/-- A store whose renderings are address-independent: no value is a
user-defined object (whose default `repr` embeds the runtime address into
the rendered text), and every opaque value's `repr` is constant in the
address (excluding `__dict__`-less builtins such as `object()` instances and
generators, whose default `repr` likewise embeds the address). -/
def AddrIndepStore (s : Store) : Prop :=
  ∀ a : Nat,
    (∀ c attrs, s a ≠ PyObj.objO c attrs) ∧
    (∀ tn f, s a = PyObj.opaqueO tn (some f) → ∀ x y : Nat, f x = f y)

/-! Concrete test data used by witnesses and counterexamples. -/

/-- A store of opaque objects with a failing `repr`. -/
def trivStore : Store := fun _ => PyObj.opaqueO "T" none

/-- A store whose address 0 holds a list containing itself. -/
def cycStore : Store := fun _ => PyObj.listO [PyValue.refV 0]

/-- A frame of guest code at line 1 with empty scopes. -/
def witnessFrame : FrameData :=
  { filename := USER_FILENAME, funcName := "<module>", line := 1, frameId := 0
    locals := [], globals := [] }

/-- A recordable line event in guest code. -/
def witnessLineEvent : TraceEvent :=
  { kind := "line", frame := witnessFrame, backs := [] }

/-- A run producing one more recordable event than the step ceiling. -/
def manyEventsInput : RunInput :=
  { store := trivStore, events := List.replicate (MAX_STEPS + 1) witnessLineEvent
    raisedText := none, stdoutText := "" }

/-- The same over-ceiling run, but the guest wraps its loop in a handler
that catches the tracer's `TraceLimitExceeded` and then completes
normally. -/
def catchingInput : RunInput :=
  { store := trivStore, events := List.replicate (MAX_STEPS + 1) witnessLineEvent
    raisedText := none, stdoutText := "", catchesLimit := true
    limitRaisedText := none }

/-- A run with no events that completes normally. -/
def emptyRunInput : RunInput :=
  { store := trivStore, events := [], raisedText := none, stdoutText := "" }

/-- A binding mapping holding the internal `__name__` binding plus 24
user-visible names. -/
def m24 : List (String × PyValue) :=
  ("__name__", PyValue.strV "__main__") ::
    (["v01", "v02", "v03", "v04", "v05", "v06", "v07", "v08", "v09", "v10",
      "v11", "v12", "v13", "v14", "v15", "v16", "v17", "v18", "v19", "v20",
      "v21", "v22", "v23", "v24"].map (fun s => (s, PyValue.intV 0)))

/-- A store holding a user-defined object (default, address-bearing `repr`)
at every address. -/
def objStore : Store := fun _ => PyObj.objO "Foo" []

/-- A line event whose local `x` is bound to the object at address 0. -/
def objEvent : TraceEvent :=
  { kind := "line"
    frame := { filename := USER_FILENAME, funcName := "<module>", line := 1, frameId := 7
               locals := [("x", PyValue.refV 0)], globals := [] }
    backs := [] }

/-- The first of two related runs binding `x` to a user object. -/
def objRunInput1 : RunInput :=
  { store := objStore, events := [objEvent], raisedText := none, stdoutText := "" }

/-- The same run in a process that assigned the successor addresses. -/
def objRunInput2 : RunInput :=
  { store := objStore, events := ([objEvent]).map (mapEvent Nat.succ)
    raisedText := none, stdoutText := "" }

/-- A store holding a `__dict__`-less builtin instance (a generator) at
every address: serialized as *opaque*, rendered by `format_value`'s `repr`
fallback, whose default text embeds the live address. -/
def genStore : Store :=
  fun _ => PyObj.opaqueO "generator"
    (some (fun x =>
      "<generator object <genexpr> at 0x" ++ String.mk (Nat.toDigits 16 x) ++ ">"))

/-- A run binding `x` to the generator at address 0. -/
def genRunInput1 : RunInput :=
  { store := genStore, events := [objEvent], raisedText := none, stdoutText := "" }

/-- The same run in a process that assigned the successor addresses. -/
def genRunInput2 : RunInput :=
  { store := genStore, events := ([objEvent]).map (mapEvent Nat.succ)
    raisedText := none, stdoutText := "" }

/-- An address-independent store: every address holds an empty list. -/
def listStore : Store := fun _ => PyObj.listO []

/-- A run over `listStore` binding `x` to the list at address 0. -/
def listRunInput1 : RunInput :=
  { store := listStore, events := [objEvent], raisedText := none, stdoutText := "" }

/-- The same run with successor addresses. -/
def listRunInput2 : RunInput :=
  { store := listStore, events := ([objEvent]).map (mapEvent Nat.succ)
    raisedText := none, stdoutText := "" }

/-! ### The claim that a missing or non-string `code` yields HTTP 400 -/

/-- C1 as stated: every payload whose `code` is missing or not a string gets
status 400 with the invalid-payload shape. -/
def missingCodeRejectedClaim : Prop :=
  ∀ (childOf : String → ChildOutcome) (payload : List (String × Json)),
    (payload.find? (fun p => p.1 == "code") = none ∨
      ∃ j, payload.find? (fun p => p.1 == "code") = some j ∧ isStrJson j.2 = false) →
    api_run childOf payload = (400, invalidPayloadResponse)

/-- C1 counterexample: the empty payload lacks the `code` key, yet `api_run`
answers with status 200, not 400 — `payload.get("code", "")` defaults a
missing key to the empty string, which is a string and is executed. -/
theorem C1_counterexample : ¬ missingCodeRejectedClaim := by
  intro h
  have h2 := h (fun _ => ChildOutcome.silent) [] (Or.inl rfl)
  have h3 : (api_run (fun _ => ChildOutcome.silent) []).1 = 200 := by decide
  rw [h2] at h3
  exact absurd h3 (by decide)

/-- C1 amended: a payload whose `code` value is present and not a string is
rejected with HTTP 400 and the invalid-payload shape; a payload lacking the
`code` key defaults to the empty-string program and is executed normally with
status 200. -/
theorem C1_invalid_payload :
    (∀ (childOf : String → ChildOutcome) (payload : List (String × Json)),
        isStrJson (jsonGet payload "code" (Json.str "")) = false →
        api_run childOf payload = (400, invalidPayloadResponse)) ∧
    (∀ (childOf : String → ChildOutcome) (payload : List (String × Json)),
        payload.find? (fun p => p.1 == "code") = none →
        api_run childOf payload = (200, apiView (execute_code (childOf "")).2)) := by
  constructor
  · intro childOf payload hns
    unfold api_run
    cases hj : jsonGet payload "code" (Json.str "") <;>
      simp only [hj, isStrJson] at hns ⊢
    exact absurd hns (by decide)
  · intro childOf payload hmiss
    unfold api_run jsonGet
    rw [hmiss]

/-- Witness for C1: a concrete non-string `code` is rejected, and a concrete
payload without `code` runs the empty program. -/
theorem C1_witness :
    api_run (fun _ => ChildOutcome.silent) [("code", Json.num 3)] =
      (400, invalidPayloadResponse) ∧
    api_run (fun _ => ChildOutcome.silent) [] =
      (200, apiView (execute_code ChildOutcome.silent).2) :=
  ⟨C1_invalid_payload.1 (fun _ => ChildOutcome.silent) [("code", Json.num 3)] rfl,
    C1_invalid_payload.2 (fun _ => ChildOutcome.silent) [] rfl⟩

/-! ### The step ceiling -/

theorem collectSteps_length_le (store : Store) :
    ∀ (events : List TraceEvent) (acc : List Step), acc.length ≤ MAX_STEPS →
      ((collectSteps store events acc).1).length ≤ MAX_STEPS := by
  intro events
  induction events with
  | nil => intro acc h; exact h
  | cons ev rest ih =>
    intro acc h
    unfold collectSteps
    by_cases hrec : recordableEvent ev
    · simp only [hrec, if_true]
      by_cases hfull : MAX_STEPS ≤ acc.length
      · simp only [hfull, if_true]; exact h
      · simp only [hfull, if_false]
        exact ih _ (by simp only [List.length_append, List.length_cons, List.length_nil]; omega)
    · simp only [hrec, if_false]
      exact ih _ h

theorem collectSteps_truncates (store : Store) :
    ∀ (events : List TraceEvent) (acc : List Step), acc.length ≤ MAX_STEPS →
      MAX_STEPS < acc.length + (events.filter recordableEvent).length →
      (collectSteps store events acc).2 = true := by
  intro events
  induction events with
  | nil =>
    intro acc hle hgt
    simp only [List.filter_nil, List.length_nil] at hgt
    omega
  | cons ev rest ih =>
    intro acc hle hgt
    unfold collectSteps
    by_cases hrec : recordableEvent ev
    · simp only [hrec, if_true]
      by_cases hfull : MAX_STEPS ≤ acc.length
      · simp only [hfull, if_true]
      · simp only [hfull, if_false]
        apply ih
        · simp only [List.length_append, List.length_cons, List.length_nil]; omega
        · simp only [List.filter_cons, hrec, if_true, List.length_cons,
            List.length_append, List.length_nil] at hgt ⊢
          omega
    · simp only [hrec, if_false]
      apply ih acc hle
      simp only [List.filter_cons, hrec] at hgt
      simpa using hgt

theorem run_user_code_truncated (inp : RunInput) :
    (run_user_code inp).truncated =
      ((collectSteps inp.store inp.events []).2 && !inp.catchesLimit) := rfl

theorem run_user_code_error (inp : RunInput) :
    (run_user_code inp).error =
      (if (collectSteps inp.store inp.events []).2 then
        (if inp.catchesLimit then inp.limitRaisedText else some truncationMessage)
      else inp.raisedText) := rfl

/-- C2 counterexample: a guest that wraps its over-ceiling loop in
`try/except Exception` catches the `TraceLimitExceeded` the tracer raises
into its frame (CPython propagates a trace-function exception into the
traced frame, unsetting tracing), so the run completes with
`truncated = false` and a null error despite producing more recordable
instrumentation events than the ceiling — refuting the claim's second
half. -/
theorem C2_counterexample : ¬ stepCeilingClaim := by
  intro h
  have hrec : recordableEvent witnessLineEvent = true := by decide
  have hcount : MAX_STEPS < (catchingInput.events.filter recordableEvent).length := by
    have hev : catchingInput.events =
        List.replicate (MAX_STEPS + 1) witnessLineEvent := rfl
    rw [hev, List.filter_replicate, hrec]
    simp
  have h2 := (h.2 catchingInput hcount).1
  have hr : (collectSteps catchingInput.store catchingInput.events []).2 = true :=
    collectSteps_truncates catchingInput.store catchingInput.events []
      (by simp) (by simpa using hcount)
  have h3 : (run_user_code catchingInput).truncated = false := by
    rw [run_user_code_truncated catchingInput, hr]
    rfl
  rw [h2] at h3
  cases h3

/-- C2 amended: every returned trace holds at most `MAX_STEPS` (2000) steps,
on every supervisor path; and a run whose guest produces more recordable
instrumentation events than the ceiling comes back truncated with the error
message naming the ceiling, unless the guest program itself intercepts the
trace-limit exception that CPython delivers into the traced frame. -/
theorem C2_step_ceiling :
    (∀ o : ChildOutcome, ((execute_code o).2.trace).length ≤ MAX_STEPS) ∧
    (∀ inp : RunInput,
        MAX_STEPS < (inp.events.filter recordableEvent).length →
        inp.catchesLimit = false →
        (run_user_code inp).truncated = true ∧
        (run_user_code inp).error = some truncationMessage) ∧
    truncationMessage = "Visualization limited to 2000 steps" := by
  refine ⟨?_, ?_, by decide⟩
  · intro o
    cases o with
    | stillRunning u =>
      have : ((execute_code (ChildOutcome.stillRunning u)).2.trace).length = 0 := rfl
      rw [this]; exact Nat.zero_le _
    | silent =>
      have : ((execute_code ChildOutcome.silent).2.trace).length = 0 := rfl
      rw [this]; exact Nat.zero_le _
    | delivered inp =>
      have h := collectSteps_length_le inp.store inp.events [] (by simp)
      have heq : (execute_code (ChildOutcome.delivered inp)).2.trace =
          (collectSteps inp.store inp.events []).1 := rfl
      rw [heq]; exact h
  · intro inp hgt hcat
    have h := collectSteps_truncates inp.store inp.events [] (by simp)
      (by simpa using hgt)
    have htr : (run_user_code inp).truncated =
        ((collectSteps inp.store inp.events []).2 && !inp.catchesLimit) := rfl
    have herr : (run_user_code inp).error =
        (if (collectSteps inp.store inp.events []).2 then
          (if inp.catchesLimit then inp.limitRaisedText else some truncationMessage)
        else inp.raisedText) := rfl
    constructor
    · rw [htr, h, hcat]
      rfl
    · rw [herr, h, hcat]
      simp

/-- Witness for C2: a run of 2001 recordable line events whose guest does
not intercept the trace-limit exception is truncated with the
ceiling-naming message. -/
theorem C2_witness :
    (run_user_code manyEventsInput).truncated = true ∧
    (run_user_code manyEventsInput).error = some truncationMessage := by
  apply C2_step_ceiling.2.1 manyEventsInput ?_ rfl
  have hrec : recordableEvent witnessLineEvent = true := by decide
  have hev : manyEventsInput.events = List.replicate (MAX_STEPS + 1) witnessLineEvent := rfl
  rw [hev, List.filter_replicate, hrec]
  simp

/-! ### The flag and error invariants of the returned trace -/

/-- C4 counterexample: a child that exits without delivering a result gets
`error = "No result produced"`, which is non-null yet is none of the three
causes the claim enumerates (guest exception, truncation, timeout). -/
theorem C4_counterexample : ¬ flagsAndErrorClaim := by
  intro h
  have h2 := (h ChildOutcome.silent).2.1
  have h3 : abnormalListed ChildOutcome.silent := h2 (by decide)
  exact h3

/-- C4 amended: `truncated` and `timed_out` are never both true, and `error`
is non-null only on abnormal termination — guest exception, truncation,
timeout, or silent child failure — and is null on normal completion. -/
theorem C4_flags_and_error :
    ∀ o : ChildOutcome,
      ¬((execute_code o).2.truncated = true ∧ (execute_code o).2.timed_out = true) ∧
      ((execute_code o).2.error ≠ none → abnormalOutcome o) ∧
      (normalCompletion o → (execute_code o).2.error = none) := by
  intro o
  cases o with
  | stillRunning u =>
    refine ⟨fun hc => ?_, fun _ => trivial, fun hn => hn.elim⟩
    have : (execute_code (ChildOutcome.stillRunning u)).2.truncated = false := rfl
    rw [this] at hc
    exact Bool.false_ne_true hc.1
  | silent =>
    refine ⟨fun hc => ?_, fun _ => trivial, fun hn => hn.elim⟩
    have : (execute_code ChildOutcome.silent).2.timed_out = false := rfl
    rw [this] at hc
    exact Bool.false_ne_true hc.2
  | delivered inp =>
    have htr : (run_user_code inp).truncated =
        ((collectSteps inp.store inp.events []).2 && !inp.catchesLimit) := rfl
    have hto : (execute_code (ChildOutcome.delivered inp)).2.timed_out = false := rfl
    have herr : (execute_code (ChildOutcome.delivered inp)).2.error =
        (if (collectSteps inp.store inp.events []).2 then
          (if inp.catchesLimit then inp.limitRaisedText else some truncationMessage)
        else inp.raisedText) := rfl
    have hge : guestError inp =
        (if (collectSteps inp.store inp.events []).2 then
          (if inp.catchesLimit then inp.limitRaisedText else none)
        else inp.raisedText) := rfl
    refine ⟨fun hc => ?_, fun he => ?_, fun hn => ?_⟩
    · rw [hto] at hc
      exact Bool.false_ne_true hc.2
    · cases hb : (collectSteps inp.store inp.events []).2 with
      | true =>
        cases hcat : inp.catchesLimit with
        | false => exact Or.inl (by rw [htr, hb, hcat]; rfl)
        | true =>
          rw [hb, hcat] at herr
          simp only [if_true] at herr
          rw [herr] at he
          refine Or.inr ?_
          rw [hge, hb, hcat]
          simpa using he
      | false =>
        rw [hb] at herr
        simp only [Bool.false_eq_true, if_false] at herr
        rw [herr] at he
        refine Or.inr ?_
        rw [hge, hb]
        simpa using he
    · obtain ⟨hn1, hn2⟩ := hn
      rw [htr] at hn1
      rw [hge] at hn2
      rw [herr]
      cases hb : (collectSteps inp.store inp.events []).2 with
      | false =>
        rw [hb] at hn2
        simp only [Bool.false_eq_true, if_false] at hn2 ⊢
        exact hn2
      | true =>
        rw [hb] at hn1 hn2
        simp only [Bool.true_and] at hn1
        have hcat : inp.catchesLimit = true := by
          cases hcl : inp.catchesLimit with
          | true => rfl
          | false => rw [hcl] at hn1; cases hn1
        rw [hcat] at hn2
        simp at hn2 ⊢
        simp [hcat, hn2]

/-- Witness for C4: a normally completing run has a null error. -/
theorem C4_witness :
    (execute_code (ChildOutcome.delivered emptyRunInput)).2.error = none :=
  (C4_flags_and_error (ChildOutcome.delivered emptyRunInput)).2.2 ⟨by decide, rfl⟩

/-! ### The timeout path -/

/-- C5: when the child is still running at budget expiry, the supervisor
kills then reaps it and returns the fixed timeout trace — `timed_out = true`,
empty stdout, empty trace, the fixed message — independent of whatever the
child had produced so far (no partial trace is salvaged). -/
theorem C5_timeout_result (unsent : RunInput) :
    execute_code (ChildOutcome.stillRunning unsent) =
      ([SupAction.kill, SupAction.join],
        { stdout := "", trace := [], error := some "Execution timed out"
          truncated := false, timed_out := true }) := rfl

/-! ### The scope snapshot policy -/

theorem sanitizeGo_keys (store : Store) :
    ∀ (l : List (String × PyValue)) (h : Heap),
      ((sanitizeGo store l h).1).map Prod.fst =
        (l.filter (fun p => !isInternalName p.1)).map Prod.fst := by
  intro l
  induction l with
  | nil => intro h; rfl
  | cons kv rest ih =>
    intro h
    cases hint : isInternalName kv.1 <;>
      simp [sanitizeGo, hint, List.filter_cons, ih]

/-- C3 counterexample: a mapping holding `__name__` plus 24 user-visible
names snapshots to only 23 entries, because the code caps at the first 24
sorted entries before dropping internal names; the spec-ordered computation
(filter, then sort, then cap) gives a different, 24-entry result. -/
theorem C3_counterexample :
    (m24.filter (fun p => !isInternalName p.1)).length = 24 ∧
    ((sanitize_mapping trivStore m24 []).1).length = 23 ∧
    sanitize_mapping trivStore m24 [] ≠ sanitizeMappingSpec trivStore m24 [] := by
  exact ⟨by decide, by decide, by decide⟩

/-- C3 amended: the snapshot is computed by sorting all entries by name,
capping at the first 24 (`MAX_PREVIEW_ITEMS * 4`), and then dropping the
built-ins binding and double-underscore names; hence at most 24 entries
appear, and internal names falling within the first 24 sorted entries
consume cap slots, so fewer than 24 user-visible names can appear even when
the mapping holds at least 24 of them. -/
theorem C3_sanitize_cap_before_filter (store : Store)
    (mapping : List (String × PyValue)) (heap : Heap) :
    ((sanitize_mapping store mapping heap).1).map Prod.fst =
      (((sortByKey Prod.fst mapping).take (MAX_PREVIEW_ITEMS * 4)).filter
          (fun p => !isInternalName p.1)).map Prod.fst ∧
    ((sanitize_mapping store mapping heap).1).length ≤ MAX_PREVIEW_ITEMS * 4 := by
  refine ⟨sanitizeGo_keys store _ heap, ?_⟩
  have h := sanitizeGo_keys store ((sortByKey Prod.fst mapping).take (MAX_PREVIEW_ITEMS * 4)) heap
  have hlen := congrArg List.length h
  simp only [List.length_map] at hlen
  calc ((sanitize_mapping store mapping heap).1).length
      = (((sortByKey Prod.fst mapping).take (MAX_PREVIEW_ITEMS * 4)).filter
          (fun p => !isInternalName p.1)).length := hlen
    _ ≤ ((sortByKey Prod.fst mapping).take (MAX_PREVIEW_ITEMS * 4)).length :=
        List.length_filter_le _ _
    _ ≤ MAX_PREVIEW_ITEMS * 4 := List.length_take_le _ _

/-! ### Heap-key bookkeeping for the reference serializer -/

theorem mem_of_heapContains (h : Heap) (k : String) (hc : heapContains h k = true) :
    k ∈ heapKeys h :=
  List.elem_iff.mp hc

theorem heapContains_of_mem (h : Heap) (k : String) (hm : k ∈ heapKeys h) :
    heapContains h k = true :=
  List.elem_iff.mpr hm

theorem not_mem_of_heapContains_false (h : Heap) (k : String)
    (hc : heapContains h k = false) : k ∉ heapKeys h := by
  intro hm
  rw [heapContains_of_mem h k hm] at hc
  cases hc

theorem heapKeys_heapSet (h : Heap) (k : String) (e : HeapEntry) :
    heapKeys (heapSet h k e) = heapKeys h := by
  induction h with
  | nil => rfl
  | cons p rest ih =>
    cases hpk : (p.1 == k) with
    | true =>
      have hk : p.1 = k := eq_of_beq hpk
      simp only [heapSet, List.map_cons, hpk, if_true, heapKeys] at ih ⊢
      rw [ih, hk]
    | false =>
      simp only [heapSet, List.map_cons, hpk, heapKeys] at ih ⊢
      simp only [Bool.false_eq_true, if_false]
      rw [ih]

theorem serializeSeqWith_keys (g : PyValue → Heap → Descriptor × Heap) (hg : KeysProp g) :
    ∀ (vs : List PyValue) (h : Heap),
      (∃ ext, heapKeys ((serializeSeqWith g vs h).2) = heapKeys h ++ ext) ∧
      ((heapKeys h).Nodup → (heapKeys ((serializeSeqWith g vs h).2)).Nodup) := by
  intro vs
  induction vs with
  | nil => intro h; exact ⟨⟨[], by simp [serializeSeqWith]⟩, fun hn => hn⟩
  | cons v rest ih =>
    intro h
    have hstep : (serializeSeqWith g (v :: rest) h).2 =
        (serializeSeqWith g rest (g v h).2).2 := rfl
    obtain ⟨e1, he1⟩ := (hg v h).1
    obtain ⟨e2, he2⟩ := (ih (g v h).2).1
    refine ⟨⟨e1 ++ e2, ?_⟩, fun hn => ?_⟩
    · rw [hstep, he2, he1, List.append_assoc]
    · rw [hstep]
      exact (ih (g v h).2).2 ((hg v h).2 hn)

theorem serializeMapWith_keys (g : PyValue → Heap → Descriptor × Heap) (hg : KeysProp g) :
    ∀ (es : List (PyValue × PyValue)) (h : Heap),
      (∃ ext, heapKeys ((serializeMapWith g es h).2) = heapKeys h ++ ext) ∧
      ((heapKeys h).Nodup → (heapKeys ((serializeMapWith g es h).2)).Nodup) := by
  intro es
  induction es with
  | nil => intro h; exact ⟨⟨[], by simp [serializeMapWith]⟩, fun hn => hn⟩
  | cons kv rest ih =>
    intro h
    have hstep : (serializeMapWith g (kv :: rest) h).2 =
        (serializeMapWith g rest (g kv.2 (g kv.1 h).2).2).2 := rfl
    obtain ⟨e1, he1⟩ := (hg kv.1 h).1
    obtain ⟨e2, he2⟩ := (hg kv.2 (g kv.1 h).2).1
    obtain ⟨e3, he3⟩ := (ih (g kv.2 (g kv.1 h).2).2).1
    refine ⟨⟨e1 ++ (e2 ++ e3), ?_⟩, fun hn => ?_⟩
    · rw [hstep, he3, he2, he1]
      simp [List.append_assoc]
    · rw [hstep]
      exact (ih _).2 ((hg kv.2 _).2 ((hg kv.1 h).2 hn))

theorem serializeAttrsWith_keys (g : PyValue → Heap → Descriptor × Heap) (hg : KeysProp g) :
    ∀ (nvs : List (String × PyValue)) (h : Heap),
      (∃ ext, heapKeys ((serializeAttrsWith g nvs h).2) = heapKeys h ++ ext) ∧
      ((heapKeys h).Nodup → (heapKeys ((serializeAttrsWith g nvs h).2)).Nodup) := by
  intro nvs
  induction nvs with
  | nil => intro h; exact ⟨⟨[], by simp [serializeAttrsWith]⟩, fun hn => hn⟩
  | cons nv rest ih =>
    intro h
    have hstep : (serializeAttrsWith g (nv :: rest) h).2 =
        (serializeAttrsWith g rest (g nv.2 h).2).2 := rfl
    obtain ⟨e1, he1⟩ := (hg nv.2 h).1
    obtain ⟨e2, he2⟩ := (ih (g nv.2 h).2).1
    refine ⟨⟨e1 ++ e2, ?_⟩, fun hn => ?_⟩
    · rw [hstep, he2, he1, List.append_assoc]
    · rw [hstep]
      exact (ih (g nv.2 h).2).2 ((hg nv.2 h).2 hn)

theorem heapKeys_append_single (h : Heap) (ref : String) (ph : HeapEntry) :
    heapKeys (h ++ [(ref, ph)]) = heapKeys h ++ [ref] := by
  rw [heapKeys, List.map_append]; rfl

theorem nodup_keys_append_fresh (h : Heap) (ref : String) (ph : HeapEntry)
    (hn : (heapKeys h).Nodup) (hnm : ref ∉ heapKeys h) :
    (heapKeys (h ++ [(ref, ph)])).Nodup := by
  rw [heapKeys_append_single, List.nodup_append]
  refine ⟨hn, List.nodup_singleton _, ?_⟩
  intro x hx hy
  simp only [List.mem_singleton] at hy
  subst hy
  exact hnm hx

/-- Composition step for the fresh-composite branch of the serializer: the
placeholder is appended, children only append further, and the final
in-place update leaves the keys unchanged. -/
theorem freshBranch_keys (h : Heap) (ref : String) (ph : HeapEntry)
    (hfresh : ref ∉ heapKeys h) (h2 : Heap) (entry : HeapEntry)
    (hext : ∃ ext, heapKeys h2 = heapKeys (h ++ [(ref, ph)]) ++ ext)
    (hnd2 : (heapKeys (h ++ [(ref, ph)])).Nodup → (heapKeys h2).Nodup) :
    (∃ ext, heapKeys (heapSet h2 ref entry) = heapKeys h ++ ext) ∧
    ((heapKeys h).Nodup → (heapKeys (heapSet h2 ref entry)).Nodup) := by
  obtain ⟨ext, he⟩ := hext
  refine ⟨⟨ref :: ext, ?_⟩, fun hn => ?_⟩
  · rw [heapKeys_heapSet, he, heapKeys_append_single]
    simp
  · rw [heapKeys_heapSet]
    exact hnd2 (nodup_keys_append_fresh h ref ph hn hfresh)

theorem serializeBody_keys (store : Store) (g : PyValue → Heap → Descriptor × Heap)
    (hg : KeysProp g) : KeysProp (serializeBody store g) := by
  intro v h
  cases v with
  | refV a =>
    unfold serializeBody
    cases hc : heapContains h ("obj_" ++ toString a) with
    | true =>
      refine ⟨⟨[], by simp [hc]⟩, fun hn => by simpa [hc] using hn⟩
    | false =>
      have hfresh : ("obj_" ++ toString a) ∉ heapKeys h :=
        not_mem_of_heapContains_false h _ hc
      cases hsa : store a with
      | listO xs =>
        simp only [hc, hsa, Bool.false_eq_true, if_false]
        exact freshBranch_keys h _ _ hfresh _ _
          (serializeSeqWith_keys _ hg _ _).1 (serializeSeqWith_keys _ hg _ _).2
      | tupleO xs =>
        simp only [hc, hsa, Bool.false_eq_true, if_false]
        exact freshBranch_keys h _ _ hfresh _ _
          (serializeSeqWith_keys _ hg _ _).1 (serializeSeqWith_keys _ hg _ _).2
      | setO xs =>
        simp only [hc, hsa, Bool.false_eq_true, if_false]
        exact freshBranch_keys h _ _ hfresh _ _
          (serializeSeqWith_keys _ hg _ _).1 (serializeSeqWith_keys _ hg _ _).2
      | dictO es =>
        simp only [hc, hsa, Bool.false_eq_true, if_false]
        exact freshBranch_keys h _ _ hfresh _ _
          (serializeMapWith_keys _ hg _ _).1 (serializeMapWith_keys _ hg _ _).2
      | objO c attrs =>
        simp only [hc, hsa, Bool.false_eq_true, if_false]
        exact freshBranch_keys h _ _ hfresh _ _
          (serializeAttrsWith_keys _ hg _ _).1 (serializeAttrsWith_keys _ hg _ _).2
      | opaqueO tn r =>
        simp only [hc, hsa, Bool.false_eq_true, if_false]
        exact freshBranch_keys h _ _ hfresh _ _ ⟨[], by simp⟩ (fun hn => hn)
  | intV n =>
    exact ⟨⟨[], by simp [serializeBody]⟩, fun hn => by simpa [serializeBody] using hn⟩
  | boolV b =>
    exact ⟨⟨[], by simp [serializeBody]⟩, fun hn => by simpa [serializeBody] using hn⟩
  | noneV =>
    exact ⟨⟨[], by simp [serializeBody]⟩, fun hn => by simpa [serializeBody] using hn⟩
  | strV s =>
    exact ⟨⟨[], by simp [serializeBody]⟩, fun hn => by simpa [serializeBody] using hn⟩

theorem serializeReferenceFuel_keys (store : Store) :
    ∀ f : Nat, KeysProp (fun v h => serializeReferenceFuel store f v h) := by
  intro f
  induction f with
  | zero =>
    intro v h
    cases v <;> exact ⟨⟨[], by simp [serializeReferenceFuel, isScalar]⟩, fun hn => by
      simpa [serializeReferenceFuel, isScalar] using hn⟩
  | succ f ih =>
    exact serializeBody_keys store (fun x hh => serializeReferenceFuel store f x hh) ih

/-! ### Heap dedup and cycle safety of the reference serializer -/

theorem serializeRef_desc (store : Store) (f a : Nat) (h : Heap) :
    (serializeReferenceFuel store (f + 1) (.refV a) h).1 = mkRefDescriptor store a := by
  show (serializeBody store (fun x hh => serializeReferenceFuel store f x hh)
    (.refV a) h).1 = _
  unfold serializeBody
  cases hc : heapContains h ("obj_" ++ toString a) <;>
    cases hsa : store a <;> simp [hc, hsa]

theorem serializeRef_already (store : Store) (f a : Nat) (h : Heap)
    (hc : heapContains h ("obj_" ++ toString a) = true) :
    serializeReferenceFuel store (f + 1) (.refV a) h = (mkRefDescriptor store a, h) := by
  show serializeBody store (fun x hh => serializeReferenceFuel store f x hh)
    (.refV a) h = _
  unfold serializeBody
  simp [hc]

theorem serializeRef_mem (store : Store) (f a : Nat) (h : Heap) :
    ("obj_" ++ toString a) ∈ heapKeys ((serializeReferenceFuel store (f + 1) (.refV a) h).2) := by
  show ("obj_" ++ toString a) ∈ heapKeys ((serializeBody store
    (fun x hh => serializeReferenceFuel store f x hh) (.refV a) h).2)
  unfold serializeBody
  cases hc : heapContains h ("obj_" ++ toString a) with
  | true => simpa [hc] using mem_of_heapContains h _ hc
  | false =>
    have hkp := serializeReferenceFuel_keys store f
    cases hsa : store a with
    | listO xs =>
      obtain ⟨ext, he⟩ := (serializeSeqWith_keys _ hkp (xs.take MAX_PREVIEW_ITEMS) _).1
      simp only [hc, hsa, Bool.false_eq_true, if_false]
      rw [heapKeys_heapSet, he, heapKeys_append_single]
      simp
    | tupleO xs =>
      obtain ⟨ext, he⟩ := (serializeSeqWith_keys _ hkp (xs.take MAX_PREVIEW_ITEMS) _).1
      simp only [hc, hsa, Bool.false_eq_true, if_false]
      rw [heapKeys_heapSet, he, heapKeys_append_single]
      simp
    | setO xs =>
      obtain ⟨ext, he⟩ := (serializeSeqWith_keys _ hkp
        ((sortByKey (fun x => format_value store x) xs).take MAX_PREVIEW_ITEMS) _).1
      simp only [hc, hsa, Bool.false_eq_true, if_false]
      rw [heapKeys_heapSet, he, heapKeys_append_single]
      simp
    | dictO es =>
      obtain ⟨ext, he⟩ := (serializeMapWith_keys _ hkp (es.take MAX_PREVIEW_ITEMS) _).1
      simp only [hc, hsa, Bool.false_eq_true, if_false]
      rw [heapKeys_heapSet, he, heapKeys_append_single]
      simp
    | objO c attrs =>
      obtain ⟨ext, he⟩ := (serializeAttrsWith_keys _ hkp (attrs.take MAX_PREVIEW_ITEMS) _).1
      simp only [hc, hsa, Bool.false_eq_true, if_false]
      rw [heapKeys_heapSet, he, heapKeys_append_single]
      simp
    | opaqueO tn r =>
      simp only [hc, hsa, Bool.false_eq_true, if_false]
      rw [heapKeys_heapSet, heapKeys_append_single]
      simp

/-- C6: serializing the same composite value (the same runtime identity)
twice into one heap table gives descriptors carrying the same reference id
`obj_<id>`, the table holds exactly one entry under that id, and the second
serialization returns the same lightweight descriptor without touching the
heap at all (the value is never re-walked or re-emitted). -/
theorem C6_heap_dedup (store : Store) (f a : Nat) (heap : Heap)
    (hnd : (heapKeys heap).Nodup) :
    ((serializeReferenceFuel store (f + 1) (.refV a) heap).1).ref =
        some ("obj_" ++ toString a) ∧
    serializeReferenceFuel store (f + 1) (.refV a)
        (serializeReferenceFuel store (f + 1) (.refV a) heap).2 =
      ((serializeReferenceFuel store (f + 1) (.refV a) heap).1,
        (serializeReferenceFuel store (f + 1) (.refV a) heap).2) ∧
    (heapKeys (serializeReferenceFuel store (f + 1) (.refV a) heap).2).count
        ("obj_" ++ toString a) = 1 := by
  have hdesc := serializeRef_desc store f a heap
  have hmem := serializeRef_mem store f a heap
  have hnd2 := ((serializeReferenceFuel_keys store (f + 1)) (.refV a) heap).2 hnd
  have hc2 : heapContains ((serializeReferenceFuel store (f + 1) (.refV a) heap).2)
      ("obj_" ++ toString a) = true := heapContains_of_mem _ _ hmem
  refine ⟨by rw [hdesc]; rfl, ?_, ?_⟩
  · rw [serializeRef_already store f a _ hc2, hdesc]
  · exact List.count_eq_one_of_mem hnd2 hmem

/-- Witness for C6: the dedup facts at a concrete store, value and heap. -/
theorem C6_witness :
    ((serializeReferenceFuel trivStore 3 (.refV 0) []).1).ref =
        some ("obj_" ++ toString 0) ∧
    serializeReferenceFuel trivStore 3 (.refV 0)
        (serializeReferenceFuel trivStore 3 (.refV 0) []).2 =
      ((serializeReferenceFuel trivStore 3 (.refV 0) []).1,
        (serializeReferenceFuel trivStore 3 (.refV 0) []).2) ∧
    (heapKeys (serializeReferenceFuel trivStore 3 (.refV 0) []).2).count
        ("obj_" ++ toString 0) = 1 :=
  C6_heap_dedup trivStore 2 0 [] (by decide)

/-- C7: the serializer's recursion is bounded — at the reference-depth
cutoff (fuel 0, i.e. depth at least `MAX_REFERENCE_DEPTH` = 3) a composite
value yields a scalar-style descriptor flagged `truncated = true` with the
heap untouched, so the recursion always terminates; and the self-referential
list serializes into exactly one heap entry whose single item is a
reference-only descriptor (not flagged truncated) pointing back to the entry
itself. -/
theorem C7_cycle_and_depth_bound :
    (∀ (store : Store) (v : PyValue) (heap : Heap), isScalar v = false →
        serializeReferenceFuel store 0 v heap =
          ({ serialize_scalar store v with truncated := true }, heap)) ∧
    serializeReferenceFuel cycStore MAX_REFERENCE_DEPTH (.refV 0) [] =
      (mkRefDescriptor cycStore 0,
        [("obj_0",
          { type := "list", reprS := "[[[...]]]", id := "obj_0",
            kind := some "sequence", length := some 1,
            items := some [SeqItem.desc (mkRefDescriptor cycStore 0)] })]) ∧
    (mkRefDescriptor cycStore 0).ref = some "obj_0" ∧
    (mkRefDescriptor cycStore 0).truncated = false := by
  refine ⟨?_, by decide, by decide, by decide⟩
  intro store v heap hs
  cases v with
  | refV a => rfl
  | intV n => simp [isScalar] at hs
  | boolV b => simp [isScalar] at hs
  | noneV => simp [isScalar] at hs
  | strV s => simp [isScalar] at hs

/-- Witness for C7: the depth cutoff at a concrete composite value. -/
theorem C7_witness :
    isScalar (.refV 5) = false ∧
    serializeReferenceFuel trivStore 0 (.refV 5) [] =
      ({ serialize_scalar trivStore (.refV 5) with truncated := true }, []) :=
  ⟨rfl, C7_cycle_and_depth_bound.1 trivStore (.refV 5) [] rfl⟩

/-! ### The value formatter -/

/-- C8: the value formatter — strings longer than 60 characters render as
their first 57 characters plus an ellipsis with the quoting preserved;
list-, tuple- and set-like collections render with their bracket pairs
showing at most 6 recursively rendered (at `depth + 1`, i.e. one fuel unit
less) elements plus an ellipsis marker exactly when more exist; any value at
depth above 2 (fuel 0) is the ellipsis placeholder; and a value whose `repr`
raises renders as the placeholder naming its type — the formatter is a total
function and never propagates a failure. -/
theorem C8_format_value :
    (∀ (store : Store) (s : String) (f : Nat), 60 < s.length →
        formatValueFuel store (f + 1) (.strV s) = pyStrRepr (s.take 57 ++ "...")) ∧
    (∀ (store : Store) (s : String) (f : Nat), s.length ≤ 60 →
        formatValueFuel store (f + 1) (.strV s) = pyStrRepr s) ∧
    (∀ (store : Store) (a : Nat) (xs : List PyValue) (f : Nat), store a = .listO xs →
        formatValueFuel store (f + 1) (.refV a) =
          "[" ++ String.intercalate ", "
              ((xs.take 6).map (fun x => formatValueFuel store f x) ++
                (if 6 < xs.length then ["..."] else [])) ++ "]") ∧
    (∀ (store : Store) (a : Nat) (xs : List PyValue) (f : Nat), store a = .tupleO xs →
        formatValueFuel store (f + 1) (.refV a) =
          "(" ++ String.intercalate ", "
              ((xs.take 6).map (fun x => formatValueFuel store f x) ++
                (if 6 < xs.length then ["..."] else [])) ++ ")") ∧
    (∀ (store : Store) (a : Nat) (xs : List PyValue) (f : Nat), store a = .setO xs →
        formatValueFuel store (f + 1) (.refV a) =
          "\x7b" ++ String.intercalate ", "
              ((xs.take 6).map (fun x => formatValueFuel store f x) ++
                (if 6 < xs.length then ["..."] else [])) ++ "\x7d") ∧
    (∀ (store : Store) (v : PyValue), formatValueFuel store 0 v = "...") ∧
    (∀ (store : Store) (a : Nat) (tn : String) (f : Nat), store a = .opaqueO tn none →
        formatValueFuel store (f + 1) (.refV a) = "<unrepr " ++ tn ++ ">") := by
  refine ⟨?_, ?_, ?_, ?_, ?_, ?_, ?_⟩
  · intro store s f hlen
    simp only [formatValueFuel, formatBody, hlen, if_true]
  · intro store s f hlen
    have : ¬(60 < s.length) := by omega
    simp only [formatValueFuel, formatBody, this, if_false]
  · intro store a xs f hsa
    simp only [formatValueFuel, formatBody, hsa, previewParts]
  · intro store a xs f hsa
    simp only [formatValueFuel, formatBody, hsa, previewParts]
  · intro store a xs f hsa
    simp only [formatValueFuel, formatBody, hsa, previewParts]
  · intro store v
    rfl
  · intro store a tn f hsa
    simp only [formatValueFuel, formatBody, hsa]

/-! ### No dangling references: the closedness invariant -/

theorem descClosedB_mono (ks ks2 : List String) (d : Descriptor)
    (hd : descClosedB ks d = true) (hsub : ∀ k, k ∈ ks → k ∈ ks2) :
    descClosedB ks2 d = true := by
  cases hr : d.ref with
  | none => simp [descClosedB, hr]
  | some r =>
    simp only [descClosedB, hr] at hd ⊢
    exact List.elem_iff.mpr (hsub r (List.elem_iff.mp hd))

theorem seqItemClosedB_mono (ks ks2 : List String) (it : SeqItem)
    (hd : seqItemClosedB ks it = true) (hsub : ∀ k, k ∈ ks → k ∈ ks2) :
    seqItemClosedB ks2 it = true := by
  cases it with
  | desc d => exact descClosedB_mono ks ks2 d hd hsub
  | truncMark => rfl

theorem mapItemClosedB_mono (ks ks2 : List String) (it : MapItem)
    (hd : mapItemClosedB ks it = true) (hsub : ∀ k, k ∈ ks → k ∈ ks2) :
    mapItemClosedB ks2 it = true := by
  cases it with
  | kv dk dv =>
    simp only [mapItemClosedB, Bool.and_eq_true] at hd ⊢
    exact ⟨descClosedB_mono ks ks2 dk hd.1 hsub, descClosedB_mono ks ks2 dv hd.2 hsub⟩
  | truncMark => rfl

theorem attrValClosedB_mono (ks ks2 : List String) (it : AttrVal)
    (hd : attrValClosedB ks it = true) (hsub : ∀ k, k ∈ ks → k ∈ ks2) :
    attrValClosedB ks2 it = true := by
  cases it with
  | desc d => exact descClosedB_mono ks ks2 d hd hsub
  | truncMark => rfl

theorem entryClosedB_mono (ks ks2 : List String) (e : HeapEntry)
    (he : entryClosedB ks e = true) (hsub : ∀ k, k ∈ ks → k ∈ ks2) :
    entryClosedB ks2 e = true := by
  simp only [entryClosedB, Bool.and_eq_true, List.all_eq_true] at he ⊢
  refine ⟨⟨fun it hit => seqItemClosedB_mono ks ks2 it (he.1.1 it hit) hsub,
    fun it hit => mapItemClosedB_mono ks ks2 it (he.1.2 it hit) hsub⟩,
    fun p hp => attrValClosedB_mono ks ks2 p.2 (he.2 p hp) hsub⟩

theorem heapClosedB_heapSet (h : Heap) (k : String) (e : HeapEntry)
    (hcl : heapClosedB h = true) (he : entryClosedB (heapKeys h) e = true) :
    heapClosedB (heapSet h k e) = true := by
  have hkeys := heapKeys_heapSet h k e
  simp only [heapClosedB, List.all_eq_true] at hcl ⊢
  intro p hp
  rw [hkeys]
  simp only [heapSet, List.mem_map] at hp
  obtain ⟨q, hq, hfq⟩ := hp
  by_cases hqk : (q.1 == k) = true
  · have hp2 : p = (k, e) := by rw [← hfq]; simp [hqk]
    rw [hp2]
    exact he
  · have hp2 : p = q := by rw [← hfq, if_neg hqk]
    rw [hp2]
    exact hcl q hq

theorem heapClosedB_append_placeholder (h : Heap) (ref tp rp : String)
    (hcl : heapClosedB h = true) :
    heapClosedB (h ++ [(ref, { type := tp, reprS := rp, id := ref })]) = true := by
  simp only [heapClosedB, List.all_eq_true] at hcl ⊢
  intro p hp
  rw [List.mem_append] at hp
  cases hp with
  | inl hin =>
    refine entryClosedB_mono (heapKeys h) _ p.2 (hcl p hin) ?_
    intro k hk
    rw [heapKeys_append_single]
    exact List.mem_append_left _ hk
  | inr hin =>
    simp only [List.mem_singleton] at hin
    rw [hin]
    rfl

theorem serializeSeqWith_closed (g : PyValue → Heap → Descriptor × Heap)
    (hg : ClosedProp g) :
    ∀ (vs : List PyValue) (h : Heap), heapClosedB h = true →
      (∀ k, k ∈ heapKeys h → k ∈ heapKeys ((serializeSeqWith g vs h).2)) ∧
      heapClosedB ((serializeSeqWith g vs h).2) = true ∧
      ∀ it ∈ (serializeSeqWith g vs h).1,
        seqItemClosedB (heapKeys ((serializeSeqWith g vs h).2)) it = true := by
  intro vs
  induction vs with
  | nil =>
    intro h hcl
    exact ⟨fun k hk => hk, hcl, fun it hit => absurd hit (by simp [serializeSeqWith])⟩
  | cons v rest ih =>
    intro h hcl
    have hstep1 : (serializeSeqWith g (v :: rest) h).2 =
        (serializeSeqWith g rest (g v h).2).2 := rfl
    have hstep2 : (serializeSeqWith g (v :: rest) h).1 =
        SeqItem.desc (g v h).1 :: (serializeSeqWith g rest (g v h).2).1 := rfl
    obtain ⟨hm1, hc1, hd1⟩ := hg v h hcl
    obtain ⟨hm2, hc2, hd2⟩ := ih (g v h).2 hc1
    refine ⟨?_, ?_, ?_⟩
    · intro k hk; rw [hstep1]; exact hm2 k (hm1 k hk)
    · rw [hstep1]; exact hc2
    · intro it hit
      rw [hstep2] at hit
      rw [hstep1]
      cases hit with
      | head => exact descClosedB_mono _ _ _ hd1 hm2
      | tail _ htail => exact hd2 it htail

theorem serializeMapWith_closed (g : PyValue → Heap → Descriptor × Heap)
    (hg : ClosedProp g) :
    ∀ (es : List (PyValue × PyValue)) (h : Heap), heapClosedB h = true →
      (∀ k, k ∈ heapKeys h → k ∈ heapKeys ((serializeMapWith g es h).2)) ∧
      heapClosedB ((serializeMapWith g es h).2) = true ∧
      ∀ it ∈ (serializeMapWith g es h).1,
        mapItemClosedB (heapKeys ((serializeMapWith g es h).2)) it = true := by
  intro es
  induction es with
  | nil =>
    intro h hcl
    exact ⟨fun k hk => hk, hcl, fun it hit => absurd hit (by simp [serializeMapWith])⟩
  | cons kv rest ih =>
    intro h hcl
    have hstep1 : (serializeMapWith g (kv :: rest) h).2 =
        (serializeMapWith g rest (g kv.2 (g kv.1 h).2).2).2 := rfl
    have hstep2 : (serializeMapWith g (kv :: rest) h).1 =
        MapItem.kv (g kv.1 h).1 (g kv.2 (g kv.1 h).2).1 ::
          (serializeMapWith g rest (g kv.2 (g kv.1 h).2).2).1 := rfl
    obtain ⟨hm1, hc1, hd1⟩ := hg kv.1 h hcl
    obtain ⟨hm2, hc2, hd2⟩ := hg kv.2 (g kv.1 h).2 hc1
    obtain ⟨hm3, hc3, hd3⟩ := ih (g kv.2 (g kv.1 h).2).2 hc2
    refine ⟨?_, ?_, ?_⟩
    · intro k hk; rw [hstep1]; exact hm3 k (hm2 k (hm1 k hk))
    · rw [hstep1]; exact hc3
    · intro it hit
      rw [hstep2] at hit
      rw [hstep1]
      cases hit with
      | head =>
        show (descClosedB _ _ && descClosedB _ _) = true
        rw [Bool.and_eq_true]
        exact ⟨descClosedB_mono _ _ _ hd1 (fun k hk => hm3 k (hm2 k hk)),
          descClosedB_mono _ _ _ hd2 hm3⟩
      | tail _ htail => exact hd3 it htail

theorem serializeAttrsWith_closed (g : PyValue → Heap → Descriptor × Heap)
    (hg : ClosedProp g) :
    ∀ (nvs : List (String × PyValue)) (h : Heap), heapClosedB h = true →
      (∀ k, k ∈ heapKeys h → k ∈ heapKeys ((serializeAttrsWith g nvs h).2)) ∧
      heapClosedB ((serializeAttrsWith g nvs h).2) = true ∧
      ∀ p ∈ (serializeAttrsWith g nvs h).1,
        attrValClosedB (heapKeys ((serializeAttrsWith g nvs h).2)) p.2 = true := by
  intro nvs
  induction nvs with
  | nil =>
    intro h hcl
    exact ⟨fun k hk => hk, hcl, fun p hp => absurd hp (by simp [serializeAttrsWith])⟩
  | cons nv rest ih =>
    intro h hcl
    have hstep1 : (serializeAttrsWith g (nv :: rest) h).2 =
        (serializeAttrsWith g rest (g nv.2 h).2).2 := rfl
    have hstep2 : (serializeAttrsWith g (nv :: rest) h).1 =
        (nv.1, AttrVal.desc (g nv.2 h).1) :: (serializeAttrsWith g rest (g nv.2 h).2).1 := rfl
    obtain ⟨hm1, hc1, hd1⟩ := hg nv.2 h hcl
    obtain ⟨hm2, hc2, hd2⟩ := ih (g nv.2 h).2 hc1
    refine ⟨?_, ?_, ?_⟩
    · intro k hk; rw [hstep1]; exact hm2 k (hm1 k hk)
    · rw [hstep1]; exact hc2
    · intro p hp
      rw [hstep2] at hp
      rw [hstep1]
      cases hp with
      | head => exact descClosedB_mono _ _ _ hd1 hm2
      | tail _ htail => exact hd2 p htail

theorem entryClosedB_of_fields (ks : List String) (e : HeapEntry)
    (hi : ∀ it ∈ e.items.getD [], seqItemClosedB ks it = true)
    (hen : ∀ it ∈ e.entries.getD [], mapItemClosedB ks it = true)
    (hat : ∀ p ∈ e.attributes.getD [], attrValClosedB ks p.2 = true) :
    entryClosedB ks e = true := by
  simp only [entryClosedB, Bool.and_eq_true, List.all_eq_true]
  exact ⟨⟨hi, hen⟩, hat⟩

theorem seqItems_all_closed (ks : List String) (its : List SeqItem) (c : Prop)
    [Decidable c] (hits : ∀ it ∈ its, seqItemClosedB ks it = true) :
    ∀ it ∈ its ++ (if c then [SeqItem.truncMark] else []),
      seqItemClosedB ks it = true := by
  intro it hit
  rw [List.mem_append] at hit
  cases hit with
  | inl hin => exact hits it hin
  | inr hin =>
    by_cases hcnd : c
    · rw [if_pos hcnd] at hin
      simp only [List.mem_singleton] at hin
      rw [hin]; rfl
    · rw [if_neg hcnd] at hin
      cases hin

theorem mapItems_all_closed (ks : List String) (its : List MapItem) (c : Prop)
    [Decidable c] (hits : ∀ it ∈ its, mapItemClosedB ks it = true) :
    ∀ it ∈ its ++ (if c then [MapItem.truncMark] else []),
      mapItemClosedB ks it = true := by
  intro it hit
  rw [List.mem_append] at hit
  cases hit with
  | inl hin => exact hits it hin
  | inr hin =>
    by_cases hcnd : c
    · rw [if_pos hcnd] at hin
      simp only [List.mem_singleton] at hin
      rw [hin]; rfl
    · rw [if_neg hcnd] at hin
      cases hin

theorem attrs_all_closed (ks : List String) (ps : List (String × AttrVal)) (c : Prop)
    [Decidable c] (hps : ∀ p ∈ ps, attrValClosedB ks p.2 = true) :
    ∀ p ∈ ps ++ (if c then [("...", AttrVal.truncMark)] else []),
      attrValClosedB ks p.2 = true := by
  intro p hp
  rw [List.mem_append] at hp
  cases hp with
  | inl hin => exact hps p hin
  | inr hin =>
    by_cases hcnd : c
    · rw [if_pos hcnd] at hin
      simp only [List.mem_singleton] at hin
      rw [hin]; rfl
    · rw [if_neg hcnd] at hin
      cases hin

/-! Branch equations of `serializeBody` at a composite value. -/

theorem serializeBody_already (store : Store) (g : PyValue → Heap → Descriptor × Heap)
    (a : Nat) (h : Heap) (hc : heapContains h ("obj_" ++ toString a) = true) :
    serializeBody store g (.refV a) h = (mkRefDescriptor store a, h) := by
  unfold serializeBody
  simp [hc]

theorem serializeBody_listO (store : Store) (g : PyValue → Heap → Descriptor × Heap)
    (a : Nat) (h : Heap) (xs : List PyValue)
    (hc : heapContains h ("obj_" ++ toString a) = false) (hsa : store a = .listO xs) :
    serializeBody store g (.refV a) h =
      (mkRefDescriptor store a,
        heapSet (serializeSeqWith g (xs.take MAX_PREVIEW_ITEMS)
            (h ++ [("obj_" ++ toString a, placeholderEntry store a)])).2
          ("obj_" ++ toString a)
          { placeholderEntry store a with
            kind := some "sequence"
            length := some xs.length
            items := some ((serializeSeqWith g (xs.take MAX_PREVIEW_ITEMS)
                (h ++ [("obj_" ++ toString a, placeholderEntry store a)])).1 ++
              (if MAX_PREVIEW_ITEMS < xs.length then [SeqItem.truncMark] else [])) }) := by
  unfold serializeBody
  simp [hc, hsa]

theorem serializeBody_tupleO (store : Store) (g : PyValue → Heap → Descriptor × Heap)
    (a : Nat) (h : Heap) (xs : List PyValue)
    (hc : heapContains h ("obj_" ++ toString a) = false) (hsa : store a = .tupleO xs) :
    serializeBody store g (.refV a) h =
      (mkRefDescriptor store a,
        heapSet (serializeSeqWith g (xs.take MAX_PREVIEW_ITEMS)
            (h ++ [("obj_" ++ toString a, placeholderEntry store a)])).2
          ("obj_" ++ toString a)
          { placeholderEntry store a with
            kind := some "sequence"
            length := some xs.length
            items := some ((serializeSeqWith g (xs.take MAX_PREVIEW_ITEMS)
                (h ++ [("obj_" ++ toString a, placeholderEntry store a)])).1 ++
              (if MAX_PREVIEW_ITEMS < xs.length then [SeqItem.truncMark] else [])) }) := by
  unfold serializeBody
  simp [hc, hsa]

theorem serializeBody_setO (store : Store) (g : PyValue → Heap → Descriptor × Heap)
    (a : Nat) (h : Heap) (xs : List PyValue)
    (hc : heapContains h ("obj_" ++ toString a) = false) (hsa : store a = .setO xs) :
    serializeBody store g (.refV a) h =
      (mkRefDescriptor store a,
        heapSet (serializeSeqWith g
            ((sortByKey (fun x => format_value store x) xs).take MAX_PREVIEW_ITEMS)
            (h ++ [("obj_" ++ toString a, placeholderEntry store a)])).2
          ("obj_" ++ toString a)
          { placeholderEntry store a with
            kind := some "set"
            length := some (sortByKey (fun x => format_value store x) xs).length
            items := some ((serializeSeqWith g
                ((sortByKey (fun x => format_value store x) xs).take MAX_PREVIEW_ITEMS)
                (h ++ [("obj_" ++ toString a, placeholderEntry store a)])).1 ++
              (if MAX_PREVIEW_ITEMS < (sortByKey (fun x => format_value store x) xs).length
                then [SeqItem.truncMark] else [])) }) := by
  unfold serializeBody
  simp [hc, hsa]

theorem serializeBody_dictO (store : Store) (g : PyValue → Heap → Descriptor × Heap)
    (a : Nat) (h : Heap) (es : List (PyValue × PyValue))
    (hc : heapContains h ("obj_" ++ toString a) = false) (hsa : store a = .dictO es) :
    serializeBody store g (.refV a) h =
      (mkRefDescriptor store a,
        heapSet (serializeMapWith g (es.take MAX_PREVIEW_ITEMS)
            (h ++ [("obj_" ++ toString a, placeholderEntry store a)])).2
          ("obj_" ++ toString a)
          { placeholderEntry store a with
            kind := some "mapping"
            length := some es.length
            entries := some ((serializeMapWith g (es.take MAX_PREVIEW_ITEMS)
                (h ++ [("obj_" ++ toString a, placeholderEntry store a)])).1 ++
              (if MAX_PREVIEW_ITEMS < es.length then [MapItem.truncMark] else [])) }) := by
  unfold serializeBody
  simp [hc, hsa]

theorem serializeBody_objO (store : Store) (g : PyValue → Heap → Descriptor × Heap)
    (a : Nat) (h : Heap) (c : String) (attrs : List (String × PyValue))
    (hc : heapContains h ("obj_" ++ toString a) = false) (hsa : store a = .objO c attrs) :
    serializeBody store g (.refV a) h =
      (mkRefDescriptor store a,
        heapSet (serializeAttrsWith g (attrs.take MAX_PREVIEW_ITEMS)
            (h ++ [("obj_" ++ toString a, placeholderEntry store a)])).2
          ("obj_" ++ toString a)
          (if ((serializeAttrsWith g (attrs.take MAX_PREVIEW_ITEMS)
                (h ++ [("obj_" ++ toString a, placeholderEntry store a)])).1 ++
              (if MAX_PREVIEW_ITEMS < attrs.length then [("...", AttrVal.truncMark)]
                else [])).isEmpty
            then { placeholderEntry store a with kind := some "object" }
            else { placeholderEntry store a with
                   kind := some "object"
                   attributes := some ((serializeAttrsWith g (attrs.take MAX_PREVIEW_ITEMS)
                       (h ++ [("obj_" ++ toString a, placeholderEntry store a)])).1 ++
                     (if MAX_PREVIEW_ITEMS < attrs.length then [("...", AttrVal.truncMark)]
                       else [])) })) := by
  unfold serializeBody
  simp [hc, hsa]

theorem serializeBody_opaqueO (store : Store) (g : PyValue → Heap → Descriptor × Heap)
    (a : Nat) (h : Heap) (tn : String) (r : Option (Nat → String))
    (hc : heapContains h ("obj_" ++ toString a) = false) (hsa : store a = .opaqueO tn r) :
    serializeBody store g (.refV a) h =
      (mkRefDescriptor store a,
        heapSet (h ++ [("obj_" ++ toString a, placeholderEntry store a)])
          ("obj_" ++ toString a)
          { placeholderEntry store a with kind := some "opaque" }) := by
  unfold serializeBody
  simp [hc, hsa]

theorem serializeBody_closed (store : Store) (g : PyValue → Heap → Descriptor × Heap)
    (hg : ClosedProp g) : ClosedProp (serializeBody store g) := by
  intro v h hcl
  cases v with
  | intV n => exact ⟨fun k hk => hk, hcl, rfl⟩
  | boolV b => exact ⟨fun k hk => hk, hcl, rfl⟩
  | noneV => exact ⟨fun k hk => hk, hcl, rfl⟩
  | strV s => exact ⟨fun k hk => hk, hcl, rfl⟩
  | refV a =>
    cases hc : heapContains h ("obj_" ++ toString a) with
    | true =>
      rw [serializeBody_already store g a h hc]
      exact ⟨fun k hk => hk, hcl, hc⟩
    | false =>
      have hcl0 : heapClosedB (h ++ [("obj_" ++ toString a, placeholderEntry store a)]) =
          true := heapClosedB_append_placeholder h _ _ _ hcl
      have hmem0 : ∀ k, k ∈ heapKeys h →
          k ∈ heapKeys (h ++ [("obj_" ++ toString a, placeholderEntry store a)]) := by
        intro k hk
        rw [heapKeys_append_single]
        exact List.mem_append_left _ hk
      have hrefmem0 : ("obj_" ++ toString a) ∈
          heapKeys (h ++ [("obj_" ++ toString a, placeholderEntry store a)]) := by
        rw [heapKeys_append_single]
        exact List.mem_append_right _ (List.mem_singleton_self _)
      cases hsa : store a with
      | listO xs =>
        rw [serializeBody_listO store g a h xs hc hsa]
        obtain ⟨hm, hcr, hits⟩ := serializeSeqWith_closed g hg (xs.take MAX_PREVIEW_ITEMS) _ hcl0
        refine ⟨?_, ?_, ?_⟩
        · intro k hk
          show k ∈ heapKeys (heapSet _ _ _)
          rw [heapKeys_heapSet]
          exact hm k (hmem0 k hk)
        · apply heapClosedB_heapSet _ _ _ hcr
          apply entryClosedB_of_fields
          · exact seqItems_all_closed _ _ _ hits
          · intro it hit; cases hit
          · intro p hp; cases hp
        · show descClosedB (heapKeys (heapSet _ _ _)) (mkRefDescriptor store a) = true
          rw [heapKeys_heapSet]
          exact List.elem_iff.mpr (hm _ hrefmem0)
      | tupleO xs =>
        rw [serializeBody_tupleO store g a h xs hc hsa]
        obtain ⟨hm, hcr, hits⟩ := serializeSeqWith_closed g hg (xs.take MAX_PREVIEW_ITEMS) _ hcl0
        refine ⟨?_, ?_, ?_⟩
        · intro k hk
          show k ∈ heapKeys (heapSet _ _ _)
          rw [heapKeys_heapSet]
          exact hm k (hmem0 k hk)
        · apply heapClosedB_heapSet _ _ _ hcr
          apply entryClosedB_of_fields
          · exact seqItems_all_closed _ _ _ hits
          · intro it hit; cases hit
          · intro p hp; cases hp
        · show descClosedB (heapKeys (heapSet _ _ _)) (mkRefDescriptor store a) = true
          rw [heapKeys_heapSet]
          exact List.elem_iff.mpr (hm _ hrefmem0)
      | setO xs =>
        rw [serializeBody_setO store g a h xs hc hsa]
        obtain ⟨hm, hcr, hits⟩ := serializeSeqWith_closed g hg
          ((sortByKey (fun x => format_value store x) xs).take MAX_PREVIEW_ITEMS) _ hcl0
        refine ⟨?_, ?_, ?_⟩
        · intro k hk
          show k ∈ heapKeys (heapSet _ _ _)
          rw [heapKeys_heapSet]
          exact hm k (hmem0 k hk)
        · apply heapClosedB_heapSet _ _ _ hcr
          apply entryClosedB_of_fields
          · exact seqItems_all_closed _ _ _ hits
          · intro it hit; cases hit
          · intro p hp; cases hp
        · show descClosedB (heapKeys (heapSet _ _ _)) (mkRefDescriptor store a) = true
          rw [heapKeys_heapSet]
          exact List.elem_iff.mpr (hm _ hrefmem0)
      | dictO es =>
        rw [serializeBody_dictO store g a h es hc hsa]
        obtain ⟨hm, hcr, hits⟩ := serializeMapWith_closed g hg (es.take MAX_PREVIEW_ITEMS) _ hcl0
        refine ⟨?_, ?_, ?_⟩
        · intro k hk
          show k ∈ heapKeys (heapSet _ _ _)
          rw [heapKeys_heapSet]
          exact hm k (hmem0 k hk)
        · apply heapClosedB_heapSet _ _ _ hcr
          apply entryClosedB_of_fields
          · intro it hit; cases hit
          · exact mapItems_all_closed _ _ _ hits
          · intro p hp; cases hp
        · show descClosedB (heapKeys (heapSet _ _ _)) (mkRefDescriptor store a) = true
          rw [heapKeys_heapSet]
          exact List.elem_iff.mpr (hm _ hrefmem0)
      | objO cn attrs =>
        rw [serializeBody_objO store g a h cn attrs hc hsa]
        obtain ⟨hm, hcr, hats⟩ := serializeAttrsWith_closed g hg (attrs.take MAX_PREVIEW_ITEMS) _ hcl0
        refine ⟨?_, ?_, ?_⟩
        · intro k hk
          show k ∈ heapKeys (heapSet _ _ _)
          rw [heapKeys_heapSet]
          exact hm k (hmem0 k hk)
        · apply heapClosedB_heapSet _ _ _ hcr
          by_cases hemp : ((serializeAttrsWith g (attrs.take MAX_PREVIEW_ITEMS)
              (h ++ [("obj_" ++ toString a, placeholderEntry store a)])).1 ++
              (if MAX_PREVIEW_ITEMS < attrs.length then [("...", AttrVal.truncMark)]
                else [])).isEmpty
          · rw [if_pos hemp]
            apply entryClosedB_of_fields
            · intro it hit; cases hit
            · intro it hit; cases hit
            · intro p hp; cases hp
          · rw [if_neg hemp]
            apply entryClosedB_of_fields
            · intro it hit; cases hit
            · intro it hit; cases hit
            · exact attrs_all_closed _ _ _ hats
        · show descClosedB (heapKeys (heapSet _ _ _)) (mkRefDescriptor store a) = true
          rw [heapKeys_heapSet]
          exact List.elem_iff.mpr (hm _ hrefmem0)
      | opaqueO tn r =>
        rw [serializeBody_opaqueO store g a h tn r hc hsa]
        refine ⟨?_, ?_, ?_⟩
        · intro k hk
          show k ∈ heapKeys (heapSet _ _ _)
          rw [heapKeys_heapSet]
          exact hmem0 k hk
        · apply heapClosedB_heapSet _ _ _ hcl0
          apply entryClosedB_of_fields
          · intro it hit; cases hit
          · intro it hit; cases hit
          · intro p hp; cases hp
        · show descClosedB (heapKeys (heapSet _ _ _)) (mkRefDescriptor store a) = true
          rw [heapKeys_heapSet]
          exact List.elem_iff.mpr hrefmem0

theorem serializeReferenceFuel_closed (store : Store) :
    ∀ f : Nat, ClosedProp (fun v h => serializeReferenceFuel store f v h) := by
  intro f
  induction f with
  | zero =>
    intro v h hcl
    cases v <;> exact ⟨fun k hk => hk, hcl, rfl⟩
  | succ f ih =>
    exact serializeBody_closed store (fun x hh => serializeReferenceFuel store f x hh) ih

/-! Step equations for the scope snapshotter and the stack capturer. -/

theorem sanitizeGo_cons_internal (store : Store) (kv : String × PyValue)
    (rest : List (String × PyValue)) (h : Heap) (hint : isInternalName kv.1 = true) :
    sanitizeGo store (kv :: rest) h = sanitizeGo store rest h := by
  simp [sanitizeGo, hint]

theorem sanitizeGo_cons_user (store : Store) (kv : String × PyValue)
    (rest : List (String × PyValue)) (h : Heap) (hint : isInternalName kv.1 = false) :
    sanitizeGo store (kv :: rest) h =
      ((kv.1, (serialize_reference store kv.2 h).1) ::
          (sanitizeGo store rest (serialize_reference store kv.2 h).2).1,
        (sanitizeGo store rest (serialize_reference store kv.2 h).2).2) := by
  simp [sanitizeGo, hint]

theorem captureGo_skip (store : Store) (fr : FrameData) (rest : List FrameData)
    (seen : List Nat) (h : Heap) (hf : (fr.filename == USER_FILENAME) = false) :
    captureGo store (fr :: rest) seen h = captureGo store rest seen h := by
  simp [captureGo, hf]

theorem captureGo_stop (store : Store) (fr : FrameData) (rest : List FrameData)
    (seen : List Nat) (h : Heap) (hf : (fr.filename == USER_FILENAME) = true)
    (hmem : fr.frameId ∈ seen) :
    captureGo store (fr :: rest) seen h = ([], h) := by
  simp [captureGo, hf, hmem]

theorem captureGo_push (store : Store) (fr : FrameData) (rest : List FrameData)
    (seen : List Nat) (h : Heap) (hf : (fr.filename == USER_FILENAME) = true)
    (hmem : fr.frameId ∉ seen) :
    captureGo store (fr :: rest) seen h =
      ({ function := fr.funcName, line := fr.line,
          locals := (sanitize_mapping store fr.locals h).1 } ::
          (captureGo store rest (fr.frameId :: seen)
            (sanitize_mapping store fr.locals h).2).1,
        (captureGo store rest (fr.frameId :: seen)
          (sanitize_mapping store fr.locals h).2).2) := by
  simp [captureGo, hf, hmem]

theorem sanitizeGo_closed (store : Store) :
    ∀ (l : List (String × PyValue)) (h : Heap), heapClosedB h = true →
      (∀ k, k ∈ heapKeys h → k ∈ heapKeys ((sanitizeGo store l h).2)) ∧
      heapClosedB ((sanitizeGo store l h).2) = true ∧
      ∀ p ∈ (sanitizeGo store l h).1,
        descClosedB (heapKeys ((sanitizeGo store l h).2)) p.2 = true := by
  intro l
  induction l with
  | nil =>
    intro h hcl
    exact ⟨fun k hk => hk, hcl, fun p hp => absurd hp (by simp [sanitizeGo])⟩
  | cons kv rest ih =>
    intro h hcl
    cases hint : isInternalName kv.1 with
    | true =>
      rw [sanitizeGo_cons_internal store kv rest h hint]
      exact ih h hcl
    | false =>
      rw [sanitizeGo_cons_user store kv rest h hint]
      obtain ⟨hm1, hc1, hd1⟩ :=
        serializeReferenceFuel_closed store (MAX_REFERENCE_DEPTH - 0) kv.2 h hcl
      obtain ⟨hm2, hc2, hd2⟩ := ih (serialize_reference store kv.2 h).2 hc1
      refine ⟨?_, hc2, ?_⟩
      · intro k hk
        exact hm2 k (hm1 k hk)
      · intro p hp
        cases hp with
        | head => exact descClosedB_mono _ _ _ hd1 hm2
        | tail _ htail => exact hd2 p htail

theorem sanitize_mapping_closed (store : Store) (m : List (String × PyValue)) (h : Heap)
    (hcl : heapClosedB h = true) :
    (∀ k, k ∈ heapKeys h → k ∈ heapKeys ((sanitize_mapping store m h).2)) ∧
    heapClosedB ((sanitize_mapping store m h).2) = true ∧
    ∀ p ∈ (sanitize_mapping store m h).1,
      descClosedB (heapKeys ((sanitize_mapping store m h).2)) p.2 = true :=
  sanitizeGo_closed store ((sortByKey Prod.fst m).take (MAX_PREVIEW_ITEMS * 4)) h hcl

theorem captureGo_closed (store : Store) :
    ∀ (frames : List FrameData) (seen : List Nat) (h : Heap), heapClosedB h = true →
      (∀ k, k ∈ heapKeys h → k ∈ heapKeys ((captureGo store frames seen h).2)) ∧
      heapClosedB ((captureGo store frames seen h).2) = true ∧
      ∀ e ∈ (captureGo store frames seen h).1, ∀ p ∈ e.locals,
        descClosedB (heapKeys ((captureGo store frames seen h).2)) p.2 = true := by
  intro frames
  induction frames with
  | nil =>
    intro seen h hcl
    exact ⟨fun k hk => hk, hcl, fun e he => absurd he (by simp [captureGo])⟩
  | cons fr rest ih =>
    intro seen h hcl
    cases hf : (fr.filename == USER_FILENAME) with
    | false =>
      rw [captureGo_skip store fr rest seen h hf]
      exact ih seen h hcl
    | true =>
      by_cases hmem : fr.frameId ∈ seen
      · rw [captureGo_stop store fr rest seen h hf hmem]
        exact ⟨fun k hk => hk, hcl, fun e he => absurd he (by simp)⟩
      · rw [captureGo_push store fr rest seen h hf hmem]
        obtain ⟨hm1, hc1, hd1⟩ := sanitize_mapping_closed store fr.locals h hcl
        obtain ⟨hm2, hc2, hd2⟩ := ih (fr.frameId :: seen)
          (sanitize_mapping store fr.locals h).2 hc1
        refine ⟨?_, hc2, ?_⟩
        · intro k hk
          exact hm2 k (hm1 k hk)
        · intro e he p hp
          cases he with
          | head =>
            exact descClosedB_mono _ _ _ (hd1 p hp) hm2
          | tail _ htail => exact hd2 e htail p hp

theorem capture_stack_closed (store : Store) (frames : List FrameData) (h : Heap)
    (hcl : heapClosedB h = true) :
    (∀ k, k ∈ heapKeys h → k ∈ heapKeys ((capture_stack store frames h).2)) ∧
    heapClosedB ((capture_stack store frames h).2) = true ∧
    ∀ e ∈ (capture_stack store frames h).1, ∀ p ∈ e.locals,
      descClosedB (heapKeys ((capture_stack store frames h).2)) p.2 = true := by
  obtain ⟨hm, hc, he⟩ := captureGo_closed store frames [] h hcl
  refine ⟨hm, hc, ?_⟩
  intro e hemem p hp
  exact he e (List.mem_reverse.mp hemem) p hp

/-- C10: every Step assembled by the tracer satisfies the
no-dangling-reference invariant — each descriptor in its locals, globals and
stack that carries a reference id has that id as a key of the step's heap
table, because an entry is always registered under the id before the
descriptor is returned. -/
theorem C10_no_dangling_refs (store : Store) (ev : TraceEvent) :
    stepClosedB (build_step store ev) = true := by
  obtain ⟨hm1, hc1, hd1⟩ := sanitize_mapping_closed store ev.frame.locals [] rfl
  obtain ⟨hm2, hc2, hd2⟩ := sanitize_mapping_closed store ev.frame.globals
    (sanitize_mapping store ev.frame.locals []).2 hc1
  obtain ⟨hm3, hc3, hd3⟩ := capture_stack_closed store (ev.frame :: ev.backs)
    (sanitize_mapping store ev.frame.globals
      (sanitize_mapping store ev.frame.locals []).2).2 hc2
  simp only [stepClosedB, Bool.and_eq_true]
  refine ⟨⟨⟨hc3, ?_⟩, ?_⟩, ?_⟩
  · simp only [scopeClosedB, List.all_eq_true]
    intro p hp
    exact descClosedB_mono _ _ _ (hd1 p hp) (fun k hk => hm3 k (hm2 k hk))
  · simp only [scopeClosedB, List.all_eq_true]
    intro p hp
    exact descClosedB_mono _ _ _ (hd2 p hp) hm3
  · simp only [List.all_eq_true]
    intro e hemem
    simp only [scopeClosedB, List.all_eq_true]
    intro p hp
    exact hd3 e hemem p hp

/-- Witness for C8: each formatter rule at a concrete input. -/
theorem C8_witness :
    formatValueFuel trivStore 3 (.strV (String.mk (List.replicate 61 'a'))) =
      pyStrRepr ((String.mk (List.replicate 61 'a')).take 57 ++ "...") ∧
    formatValueFuel trivStore 3 (.strV "hi") = pyStrRepr "hi" ∧
    formatValueFuel cycStore 1 (.refV 0) =
      "[" ++ String.intercalate ", "
          (([PyValue.refV 0].take 6).map (fun x => formatValueFuel cycStore 0 x) ++
            (if 6 < ([PyValue.refV 0] : List PyValue).length then ["..."] else [])) ++ "]" ∧
    formatValueFuel trivStore 3 (.refV 9) = "<unrepr " ++ "T" ++ ">" := by
  refine ⟨C8_format_value.1 trivStore _ 2 (by decide), C8_format_value.2.1 trivStore "hi" 2 (by decide),
    C8_format_value.2.2.1 cycStore 0 [PyValue.refV 0] 0 rfl,
    C8_format_value.2.2.2.2.2.2 trivStore 9 "T" 2 rfl⟩

end PyTrace

namespace PyTrace

/-! ### Idempotence modulo address renaming -/

theorem typeName_map (π : Nat → Nat) (s1 s2 : Store) (hrel : StoreRel π s1 s2) :
    ∀ v : PyValue, typeName s2 (mapVal π v) = typeName s1 v := by
  intro v
  cases v with
  | intV n => rfl
  | boolV b => rfl
  | noneV => rfl
  | strV s => rfl
  | refV a =>
    show typeName s2 (.refV (π a)) = typeName s1 (.refV a)
    simp only [typeName]
    rw [hrel a]
    cases s1 a <;> rfl

theorem formatValueFuel_map (π : Nat → Nat) (s1 s2 : Store) (hrel : StoreRel π s1 s2)
    (hobj : AddrIndepStore s1) :
    ∀ (f : Nat) (v : PyValue), formatValueFuel s2 f (mapVal π v) = formatValueFuel s1 f v := by
  intro f
  induction f with
  | zero => intro v; rfl
  | succ f ih =>
    intro v
    cases v with
    | intV n => rfl
    | boolV b => rfl
    | noneV => rfl
    | strV s => rfl
    | refV a =>
      show formatBody s2 (fun x => formatValueFuel s2 f x) (.refV (π a)) =
        formatBody s1 (fun x => formatValueFuel s1 f x) (.refV a)
      have hfun : ((fun x => formatValueFuel s2 f x) ∘ mapVal π) =
          (fun x => formatValueFuel s1 f x) := funext (fun x => ih x)
      simp only [formatBody]
      rw [hrel a]
      cases hsa : s1 a with
      | listO xs =>
        simp only [mapObj]
        unfold previewParts
        rw [← List.map_take, List.map_map, hfun, List.length_map]
      | tupleO xs =>
        simp only [mapObj]
        unfold previewParts
        rw [← List.map_take, List.map_map, hfun, List.length_map]
      | setO xs =>
        simp only [mapObj]
        unfold previewParts
        rw [← List.map_take, List.map_map, hfun, List.length_map]
      | dictO es =>
        simp only [mapObj]
        unfold previewPairs
        have hpair : ((fun p : PyValue × PyValue =>
            formatValueFuel s2 f p.1 ++ ": " ++ formatValueFuel s2 f p.2) ∘
              (fun p : PyValue × PyValue => (mapVal π p.1, mapVal π p.2))) =
            (fun p : PyValue × PyValue =>
              formatValueFuel s1 f p.1 ++ ": " ++ formatValueFuel s1 f p.2) := by
          funext p
          show formatValueFuel s2 f (mapVal π p.1) ++ ": " ++
              formatValueFuel s2 f (mapVal π p.2) = _
          rw [ih p.1, ih p.2]
        rw [← List.map_take, List.map_map, hpair, List.length_map]
      | objO c attrs => exact absurd hsa ((hobj a).1 c attrs)
      | opaqueO tn r =>
        simp only [mapObj]
        cases r with
        | none => rfl
        | some f2 => exact (hobj a).2 tn f2 hsa (π a) a

end PyTrace

namespace PyTrace

theorem serialize_descView (store : Store) (f : Nat) (v : PyValue) (h : Heap) :
    descView ((serializeReferenceFuel store f v h).1) =
      (typeName store v, formatValueFuel store 3 v) := by
  cases f with
  | zero => cases v <;> rfl
  | succ f =>
    cases v with
    | intV n => rfl
    | boolV b => rfl
    | noneV => rfl
    | strV s => rfl
    | refV a => rw [serializeRef_desc store f a h]; rfl

theorem serialize_reference_descView (store : Store) (v : PyValue) (h : Heap) :
    descView ((serialize_reference store v h).1) =
      (typeName store v, formatValueFuel store 3 v) :=
  serialize_descView store (MAX_REFERENCE_DEPTH - 0) v h

theorem insertSorted_fst_map (g : PyValue → PyValue) (x : String × PyValue) :
    ∀ l : List (String × PyValue),
      insertSorted Prod.fst (x.1, g x.2) (l.map (fun p => (p.1, g p.2))) =
        (insertSorted Prod.fst x l).map (fun p => (p.1, g p.2)) := by
  intro l
  induction l with
  | nil => rfl
  | cons y ys ih =>
    simp only [List.map_cons, insertSorted]
    by_cases hlt : strLt x.1 y.1 = true
    · rw [if_pos hlt, if_pos hlt]
      rfl
    · rw [if_neg hlt, if_neg hlt]
      simp only [List.map_cons]
      rw [ih]

theorem sortByKey_fst_map (g : PyValue → PyValue) :
    ∀ l : List (String × PyValue),
      sortByKey Prod.fst (l.map (fun p => (p.1, g p.2))) =
        (sortByKey Prod.fst l).map (fun p => (p.1, g p.2)) := by
  intro l
  induction l with
  | nil => rfl
  | cons x xs ih =>
    simp only [List.map_cons, sortByKey]
    rw [ih]
    exact insertSorted_fst_map g x (sortByKey Prod.fst xs)

theorem sanitizeGo_view (store : Store) :
    ∀ (l : List (String × PyValue)) (h : Heap),
      scopeView ((sanitizeGo store l h).1) =
        (l.filter (fun p => !isInternalName p.1)).map
          (fun p => BindingView.mk p.1 (typeName store p.2) (formatValueFuel store 3 p.2)) := by
  intro l
  induction l with
  | nil => intro h; rfl
  | cons kv rest ih =>
    intro h
    cases hint : isInternalName kv.1 with
    | true =>
      rw [sanitizeGo_cons_internal store kv rest h hint, ih h]
      simp [List.filter_cons, hint]
    | false =>
      rw [sanitizeGo_cons_user store kv rest h hint]
      simp only [List.filter_cons, hint, Bool.not_false, if_true, List.map_cons]
      have hd := serialize_reference_descView store kv.2 h
      have ht : (serialize_reference store kv.2 h).1.type = typeName store kv.2 :=
        congrArg Prod.fst hd
      have hr : (serialize_reference store kv.2 h).1.reprS =
          formatValueFuel store 3 kv.2 := congrArg Prod.snd hd
      rw [show scopeView ((kv.1, (serialize_reference store kv.2 h).1) ::
          (sanitizeGo store rest (serialize_reference store kv.2 h).2).1) =
        BindingView.mk kv.1 (serialize_reference store kv.2 h).1.type
            (serialize_reference store kv.2 h).1.reprS ::
          scopeView ((sanitizeGo store rest (serialize_reference store kv.2 h).2).1) from rfl]
      rw [ih, ht, hr]

theorem sanitize_view (store : Store) (m : List (String × PyValue)) (h : Heap) :
    scopeView ((sanitize_mapping store m h).1) =
      (((sortByKey Prod.fst m).take (MAX_PREVIEW_ITEMS * 4)).filter
          (fun p => !isInternalName p.1)).map
        (fun p => BindingView.mk p.1 (typeName store p.2) (formatValueFuel store 3 p.2)) :=
  sanitizeGo_view store ((sortByKey Prod.fst m).take (MAX_PREVIEW_ITEMS * 4)) h

theorem sanitize_view_map (π : Nat → Nat) (s1 s2 : Store) (hrel : StoreRel π s1 s2)
    (hobj : AddrIndepStore s1) (m : List (String × PyValue)) (h1 h2 : Heap) :
    scopeView ((sanitize_mapping s2 (mapScope π m) h2).1) =
      scopeView ((sanitize_mapping s1 m h1).1) := by
  rw [sanitize_view, sanitize_view]
  rw [show mapScope π m = m.map (fun p => (p.1, mapVal π p.2)) from rfl]
  rw [sortByKey_fst_map, ← List.map_take, List.filter_map, List.map_map]
  have hpred : ((fun p : String × PyValue => !isInternalName p.1) ∘
      (fun p : String × PyValue => (p.1, mapVal π p.2))) =
      (fun p : String × PyValue => !isInternalName p.1) := rfl
  rw [hpred]
  have hfun : ((fun p : String × PyValue =>
      BindingView.mk p.1 (typeName s2 p.2) (formatValueFuel s2 3 p.2)) ∘
        (fun p : String × PyValue => (p.1, mapVal π p.2))) =
      (fun p : String × PyValue =>
        BindingView.mk p.1 (typeName s1 p.2) (formatValueFuel s1 3 p.2)) := by
    funext p
    show BindingView.mk p.1 (typeName s2 (mapVal π p.2))
        (formatValueFuel s2 3 (mapVal π p.2)) = _
    rw [typeName_map π s1 s2 hrel p.2, formatValueFuel_map π s1 s2 hrel hobj 3 p.2]
  rw [hfun]

end PyTrace

namespace PyTrace

theorem captureGo_view (π : Nat → Nat) (s1 s2 : Store) (hinj : Function.Injective π)
    (hrel : StoreRel π s1 s2) (hobj : AddrIndepStore s1) :
    ∀ (frames : List FrameData) (seen : List Nat) (h1 h2 : Heap),
      ((captureGo s2 (frames.map (mapFrame π)) (seen.map π) h2).1).map stackView =
        ((captureGo s1 frames seen h1).1).map stackView := by
  intro frames
  induction frames with
  | nil => intro seen h1 h2; rfl
  | cons fr rest ih =>
    intro seen h1 h2
    rw [List.map_cons]
    cases hf : (fr.filename == USER_FILENAME) with
    | false =>
      rw [captureGo_skip s2 (mapFrame π fr) (rest.map (mapFrame π)) (seen.map π) h2 hf,
        captureGo_skip s1 fr rest seen h1 hf]
      exact ih seen h1 h2
    | true =>
      by_cases hmem : fr.frameId ∈ seen
      · have hmem2 : (mapFrame π fr).frameId ∈ seen.map π :=
          List.mem_map_of_mem π hmem
        rw [captureGo_stop s2 (mapFrame π fr) (rest.map (mapFrame π)) (seen.map π) h2 hf hmem2,
          captureGo_stop s1 fr rest seen h1 hf hmem]
      · have hmem2 : (mapFrame π fr).frameId ∉ seen.map π := by
          intro hx
          exact hmem ((List.mem_map_of_injective hinj).mp hx)
        rw [captureGo_push s2 (mapFrame π fr) (rest.map (mapFrame π)) (seen.map π) h2 hf hmem2,
          captureGo_push s1 fr rest seen h1 hf hmem]
        rw [List.map_cons, List.map_cons]
        congr 1
        · show FrameView.mk fr.funcName fr.line
              (scopeView ((sanitize_mapping s2 (mapScope π fr.locals) h2).1)) =
            FrameView.mk fr.funcName fr.line
              (scopeView ((sanitize_mapping s1 fr.locals h1).1))
          rw [sanitize_view_map π s1 s2 hrel hobj fr.locals h1 h2]
        · exact ih (fr.frameId :: seen) (sanitize_mapping s1 fr.locals h1).2
            (sanitize_mapping s2 (mapScope π fr.locals) h2).2

theorem build_step_view (π : Nat → Nat) (s1 s2 : Store) (hinj : Function.Injective π)
    (hrel : StoreRel π s1 s2) (hobj : AddrIndepStore s1) (ev : TraceEvent) :
    stepView (build_step s2 (mapEvent π ev)) = stepView (build_step s1 ev) := by
  unfold stepView
  simp only [StepView.mk.injEq]
  refine ⟨rfl, rfl, ?_, ?_, ?_, ?_, ?_⟩
  · exact sanitize_view_map π s1 s2 hrel hobj ev.frame.locals _ _
  · exact sanitize_view_map π s1 s2 hrel hobj ev.frame.globals _ _
  · show ((capture_stack s2 ((mapEvent π ev).frame :: (mapEvent π ev).backs) _).1).map
        stackView = ((capture_stack s1 (ev.frame :: ev.backs) _).1).map stackView
    unfold capture_stack
    rw [List.map_reverse, List.map_reverse]
    rw [show ((mapEvent π ev).frame :: (mapEvent π ev).backs) =
      (ev.frame :: ev.backs).map (mapFrame π) from rfl]
    have hcg := captureGo_view π s1 s2 hinj hrel hobj (ev.frame :: ev.backs) []
      (sanitize_mapping s1 ev.frame.globals (sanitize_mapping s1 ev.frame.locals []).2).2
      (sanitize_mapping s2 (mapEvent π ev).frame.globals
        (sanitize_mapping s2 (mapEvent π ev).frame.locals []).2).2
    simp only [List.map_nil] at hcg
    exact congrArg List.reverse hcg
  · show (if ((mapEvent π ev).kind == "return") = true
        then some (format_value s2 (mapEvent π ev).retValue) else none) =
      (if (ev.kind == "return") = true then some (format_value s1 ev.retValue) else none)
    by_cases hk : (ev.kind == "return") = true
    · have hk2 : ((mapEvent π ev).kind == "return") = true := hk
      rw [if_pos hk2, if_pos hk]
      exact congrArg some (formatValueFuel_map π s1 s2 hrel hobj (3 - 0) ev.retValue)
    · have hk2 : ¬((mapEvent π ev).kind == "return") = true := hk
      rw [if_neg hk2, if_neg hk]
  · show (if ((mapEvent π ev).kind == "exception") = true
        then ((mapEvent π ev).excInfo).map
          (fun p => ({ type := p.1, value := format_value s2 p.2 } : ExcRecord))
        else none) =
      (if (ev.kind == "exception") = true
        then (ev.excInfo).map
          (fun p => ({ type := p.1, value := format_value s1 p.2 } : ExcRecord))
        else none)
    by_cases hk : (ev.kind == "exception") = true
    · have hk2 : ((mapEvent π ev).kind == "exception") = true := hk
      rw [if_pos hk2, if_pos hk]
      cases hei : ev.excInfo with
      | none =>
        rw [show (mapEvent π ev).excInfo = (ev.excInfo).map
          (fun p => (p.1, mapVal π p.2)) from rfl, hei]
        rfl
      | some p =>
        rw [show (mapEvent π ev).excInfo = (ev.excInfo).map
          (fun p => (p.1, mapVal π p.2)) from rfl, hei]
        show some ({ type := p.1, value := format_value s2 (mapVal π p.2) } : ExcRecord) =
          some ({ type := p.1, value := format_value s1 p.2 } : ExcRecord)
        rw [show format_value s2 (mapVal π p.2) = format_value s1 p.2 from
          formatValueFuel_map π s1 s2 hrel hobj (3 - 0) p.2]
    · have hk2 : ¬((mapEvent π ev).kind == "exception") = true := hk
      rw [if_neg hk2, if_neg hk]

end PyTrace

namespace PyTrace

theorem collectSteps_cons (store : Store) (ev : TraceEvent) (rest : List TraceEvent)
    (acc : List Step) :
    collectSteps store (ev :: rest) acc =
      (if recordableEvent ev then
        (if MAX_STEPS ≤ acc.length then (acc, true)
          else collectSteps store rest (acc ++ [build_step store ev]))
      else collectSteps store rest acc) := rfl

theorem collectSteps_view (π : Nat → Nat) (s1 s2 : Store) (hinj : Function.Injective π)
    (hrel : StoreRel π s1 s2) (hobj : AddrIndepStore s1) :
    ∀ (events : List TraceEvent) (acc1 acc2 : List Step),
      acc2.map stepView = acc1.map stepView →
      ((collectSteps s2 (events.map (mapEvent π)) acc2).1).map stepView =
        ((collectSteps s1 events acc1).1).map stepView ∧
      (collectSteps s2 (events.map (mapEvent π)) acc2).2 =
        (collectSteps s1 events acc1).2 := by
  intro events
  induction events with
  | nil => intro acc1 acc2 hacc; exact ⟨hacc, rfl⟩
  | cons ev rest ih =>
    intro acc1 acc2 hacc
    have hlen : acc2.length = acc1.length := by
      have hl := congrArg List.length hacc
      simpa using hl
    rw [List.map_cons, collectSteps_cons s2, collectSteps_cons s1]
    have hrec : recordableEvent (mapEvent π ev) = recordableEvent ev := rfl
    rw [hrec]
    cases hr : recordableEvent ev with
    | false =>
      simp only [Bool.false_eq_true, if_false]
      exact ih acc1 acc2 hacc
    | true =>
      simp only [if_true]
      rw [hlen]
      by_cases hfull : MAX_STEPS ≤ acc1.length
      · rw [if_pos hfull, if_pos hfull]
        exact ⟨hacc, rfl⟩
      · rw [if_neg hfull, if_neg hfull]
        apply ih
        rw [List.map_append, List.map_append, hacc]
        rw [show [build_step s2 (mapEvent π ev)].map stepView =
          [stepView (build_step s2 (mapEvent π ev))] from rfl]
        rw [show [build_step s1 ev].map stepView = [stepView (build_step s1 ev)] from rfl]
        rw [build_step_view π s1 s2 hinj hrel hobj ev]

/-- C9 counterexample: the claim as stated fails for a deterministic program
holding a user-defined object — the default `repr` embeds the object's
runtime address, so the rendered value of `x` differs between the two runs
even though both runs are the same program with the same inputs. -/
theorem C9_counterexample :
    (¬ idempotenceClaim) ∧
    (RelatedRuns Nat.succ genRunInput1 genRunInput2 ∧
      traceView (run_user_code genRunInput1) ≠ traceView (run_user_code genRunInput2)) := by
  refine ⟨?_, ⟨fun a => rfl, rfl, rfl, rfl, rfl, rfl⟩, by decide⟩
  intro h
  have hrel : RelatedRuns Nat.succ objRunInput1 objRunInput2 :=
    ⟨fun a => rfl, rfl, rfl, rfl, rfl, rfl⟩
  have heq := h Nat.succ objRunInput1 objRunInput2
    (fun a b hab => Nat.succ_injective hab) hrel
  exact absurd heq (by decide)

/-- C9 amended: running the same deterministic program twice with the same
inputs yields structurally identical traces — same step count, event kinds,
line numbers, bound names and rendered values — modulo the renaming of
runtime object identities between the two processes, provided every live
value renders address-independently: no user-defined object, and no opaque
(`__dict__`-less builtin) value whose `repr` reads the address — both are
rendered by address-embedding default `repr`s (reference ids themselves are
derived from addresses and differ between runs). -/
theorem C9_idempotent_modulo_addresses (π : Nat → Nat) (inp1 inp2 : RunInput)
    (hinj : Function.Injective π) (hrel : RelatedRuns π inp1 inp2)
    (hobj : AddrIndepStore inp1.store) :
    traceView (run_user_code inp1) = traceView (run_user_code inp2) := by
  obtain ⟨hstore, hevents, hraised, hcatch, hlimit, hstdout⟩ := hrel
  have hcv := collectSteps_view π inp1.store inp2.store hinj hstore hobj
    inp1.events [] [] rfl
  have htr : (collectSteps inp2.store inp2.events []).2 =
      (collectSteps inp1.store inp1.events []).2 := by
    rw [hevents]; exact hcv.2
  have hsteps : ((collectSteps inp2.store inp2.events []).1).map stepView =
      ((collectSteps inp1.store inp1.events []).1).map stepView := by
    rw [hevents]; exact hcv.1
  have htrunc : (run_user_code inp2).truncated = (run_user_code inp1).truncated := by
    rw [run_user_code_truncated inp1, run_user_code_truncated inp2, htr, hcatch]
  unfold traceView
  simp only [TraceView.mk.injEq]
  refine ⟨hstdout.symm, ?_, htrunc.symm, rfl, hsteps.symm⟩
  rw [run_user_code_error inp1, run_user_code_error inp2, htr, hcatch, hlimit, hraised]

/-- Witness for C9: the amended idempotence at a concrete pair of related
runs over an address-independent store. -/
theorem C9_witness :
    traceView (run_user_code listRunInput1) = traceView (run_user_code listRunInput2) :=
  C9_idempotent_modulo_addresses Nat.succ listRunInput1 listRunInput2
    (fun _ _ hab => Nat.succ_injective hab)
    ⟨fun _ => rfl, rfl, rfl, rfl, rfl, rfl⟩
    (fun _ => ⟨fun _ _ hx => PyObj.noConfusion hx,
      fun _ _ hx => PyObj.noConfusion hx⟩)

end PyTrace
